import Mathlib

/-!
# Verification of the Reddit Tracker data reconciliation core

Shallow embedding of the repository's SQLite-backed data model and of the
two write paths with real invariants:

* `merge_databases` from `merge_data.py` (the Reconciler), and
* `save_posts` / `save_comments` from `reddit_monitor.py` (the Entity
  Ledger ingestion; `save_account_snapshot` is a plain unconditional
  insert).

Modelling conventions, fixed once here:

* SQLite tables become Lean lists of typed rows, in insertion order; the
  implicit `id INTEGER PRIMARY KEY AUTOINCREMENT` column is dropped (the
  code reads it only to test row existence).
* `DATETIME` values are `"YYYY-MM-DD HH:MM:SS"` / ISO strings in the code;
  string comparison on that fixed format agrees with chronological order,
  so timestamps are modelled as `Nat`.  A column that may be SQL `NULL`
  becomes an `Option`; Python truthiness on a timestamp string
  (`row["last_updated"] and existing["last_updated"]`) treats `None` and
  `""` alike, both are modelled as `none`.
* `REAL` (`upvote_ratio`) is only stored and copied, never computed with,
  so it is modelled as `Option ℚ`.
* `sqlite3` raising (e.g. `IntegrityError` on a `NOT NULL` violation) is
  modelled with `Except`; a function's "committed" result applies the
  trailing `conn.commit()` only on success, mirroring that an exception
  skips the commit and the open transaction is discarded.
* `CURRENT_TIMESTAMP` defaults are supplied by an explicit `now : Nat`
  argument for the whole call.
-/

/-! ## Rows (schema from `init_database` in `reddit_monitor.py`) -/

/-- A row of `account_snapshots` (columns in schema order, `id` dropped).
`timestamp` is `DATETIME DEFAULT CURRENT_TIMESTAMP` and every write path
supplies it via the default, so it is modelled as a present `Nat`. -/
structure SnapshotRow where
  username : String := ""
  timestamp : Nat := 0
  post_karma : Option Int := none
  comment_karma : Option Int := none
  total_karma : Option Int := none
  account_created : Option Nat := none
  is_gold : Option Bool := none
  is_mod : Option Bool := none
  has_verified_email : Option Bool := none
  raw_data : Option String := none
deriving DecidableEq, Repr

/-- A row of `posts` (`post_id TEXT UNIQUE NOT NULL`). -/
structure PostRow where
  post_id : String := ""
  username : String := ""
  subreddit : Option String := none
  title : Option String := none
  selftext : Option String := none
  url : Option String := none
  local_image_path : Option String := none
  score : Option Int := none
  upvote_ratio : Option ℚ := none
  num_comments : Option Int := none
  created_utc : Option Nat := none
  first_seen : Option Nat := none
  last_updated : Option Nat := none
  is_self : Option Bool := none
  over_18 : Option Bool := none
  permalink : Option String := none
deriving DecidableEq, Repr

/-- A row of `comments` (`comment_id TEXT UNIQUE NOT NULL`). -/
structure CommentRow where
  comment_id : String := ""
  username : String := ""
  subreddit : Option String := none
  body : Option String := none
  score : Option Int := none
  created_utc : Option Nat := none
  first_seen : Option Nat := none
  last_updated : Option Nat := none
  parent_id : Option String := none
  link_id : Option String := none
  permalink : Option String := none
deriving DecidableEq, Repr

/-- A row of `score_history`.  `timestamp` is always written through its
`CURRENT_TIMESTAMP` default, so it is modelled as a present `Nat`. -/
structure ScoreRow where
  item_type : String := ""
  item_id : String := ""
  score : Option Int := none
  timestamp : Nat := 0
deriving DecidableEq, Repr

/-- The four tables of one tracker database. -/
structure Database where
  account_snapshots : List SnapshotRow := []
  posts : List PostRow := []
  comments : List CommentRow := []
  score_history : List ScoreRow := []
deriving DecidableEq, Repr

/-! ## The Reconciler: `merge_databases` from `merge_data.py`

Each table is one `foldl` over the source rows, carrying the evolving
target table and that table's counters from the `stats` dict. -/

/-- The `WHERE username = ? AND timestamp = ?` existence check on
`account_snapshots`. -/
def snapMatch (r : SnapshotRow) (t : SnapshotRow) : Bool :=
  t.username == r.username && t.timestamp == r.timestamp

/-- Accumulator of the `account_snapshots` loop: evolving target table plus
the `added` / `skipped` counters. -/
structure SnapAcc where
  tgt : List SnapshotRow
  added : Nat
  skipped : Nat
deriving DecidableEq, Repr

/-- One iteration of the `account_snapshots` loop: insert the full source
row when no target row shares `(username, timestamp)`, else skip. -/
def snapStep (acc : SnapAcc) (r : SnapshotRow) : SnapAcc :=
  if acc.tgt.any (snapMatch r) then
    { acc with skipped := acc.skipped + 1 }
  else
    { tgt := acc.tgt ++ [r], added := acc.added + 1, skipped := acc.skipped }

/-- The whole `Merging account_snapshots...` loop. -/
def mergeSnaps (src tgt : List SnapshotRow) : SnapAcc :=
  src.foldl snapStep ⟨tgt, 0, 0⟩

/-- The `UPDATE posts SET score = ?, upvote_ratio = ?, num_comments = ?,
last_updated = ? WHERE post_id = ?` payload applied to one matching row. -/
def updP (t r : PostRow) : PostRow :=
  { t with score := r.score, upvote_ratio := r.upvote_ratio,
           num_comments := r.num_comments, last_updated := r.last_updated }

/-- The post `UPDATE ... WHERE post_id = ?` statement over the table. -/
def applyPostUpdate (r : PostRow) (tgt : List PostRow) : List PostRow :=
  tgt.map fun t => if t.post_id == r.post_id then updP t r else t

/-- Accumulator of the `posts` loop. -/
structure PostAcc where
  tgt : List PostRow
  added : Nat
  updated : Nat
  skipped : Nat
deriving DecidableEq, Repr

/-- One iteration of the `posts` loop.  `SELECT id, last_updated FROM posts
WHERE post_id = ?`; on no match insert the full source row verbatim; on a
match update the mutable fields only when both `last_updated` values are
truthy and the source one is strictly greater, else skip. -/
def postStep (acc : PostAcc) (r : PostRow) : PostAcc :=
  match acc.tgt.find? (fun t => t.post_id == r.post_id) with
  | none =>
      { acc with tgt := acc.tgt ++ [r], added := acc.added + 1 }
  | some existing =>
      match r.last_updated, existing.last_updated with
      | some slu, some tlu =>
          if tlu < slu then
            { acc with tgt := applyPostUpdate r acc.tgt, updated := acc.updated + 1 }
          else
            { acc with skipped := acc.skipped + 1 }
      | _, _ => { acc with skipped := acc.skipped + 1 }

/-- The whole `Merging posts...` loop. -/
def mergePosts (src tgt : List PostRow) : PostAcc :=
  src.foldl postStep ⟨tgt, 0, 0, 0⟩

/-- The `UPDATE comments SET score = ?, last_updated = ? WHERE
comment_id = ?` payload applied to one matching row. -/
def updC (t r : CommentRow) : CommentRow :=
  { t with score := r.score, last_updated := r.last_updated }

/-- The comment `UPDATE ... WHERE comment_id = ?` statement over the table. -/
def applyCommentUpdate (r : CommentRow) (tgt : List CommentRow) : List CommentRow :=
  tgt.map fun t => if t.comment_id == r.comment_id then updC t r else t

/-- Accumulator of the `comments` loop. -/
structure CommAcc where
  tgt : List CommentRow
  added : Nat
  updated : Nat
  skipped : Nat
deriving DecidableEq, Repr

/-- One iteration of the `comments` loop (same shape as `postStep`, with
`score` and `last_updated` the only updated fields). -/
def commStep (acc : CommAcc) (r : CommentRow) : CommAcc :=
  match acc.tgt.find? (fun t => t.comment_id == r.comment_id) with
  | none =>
      { acc with tgt := acc.tgt ++ [r], added := acc.added + 1 }
  | some existing =>
      match r.last_updated, existing.last_updated with
      | some slu, some tlu =>
          if tlu < slu then
            { acc with tgt := applyCommentUpdate r acc.tgt, updated := acc.updated + 1 }
          else
            { acc with skipped := acc.skipped + 1 }
      | _, _ => { acc with skipped := acc.skipped + 1 }

/-- The whole `Merging comments...` loop. -/
def mergeComments (src tgt : List CommentRow) : CommAcc :=
  src.foldl commStep ⟨tgt, 0, 0, 0⟩

/-- The `WHERE item_type = ? AND item_id = ? AND timestamp = ?` existence
check on `score_history`. -/
def histMatch (r : ScoreRow) (t : ScoreRow) : Bool :=
  t.item_type == r.item_type && t.item_id == r.item_id && t.timestamp == r.timestamp

/-- Accumulator of the `score_history` loop. -/
structure HistAcc where
  tgt : List ScoreRow
  added : Nat
  skipped : Nat
deriving DecidableEq, Repr

/-- One iteration of the `score_history` loop: insert when no target row
shares `(item_type, item_id, timestamp)`, else skip. -/
def histStep (acc : HistAcc) (r : ScoreRow) : HistAcc :=
  if acc.tgt.any (histMatch r) then
    { acc with skipped := acc.skipped + 1 }
  else
    { tgt := acc.tgt ++ [r], added := acc.added + 1, skipped := acc.skipped }

/-- The whole `Merging score_history...` loop. -/
def mergeHistory (src tgt : List ScoreRow) : HistAcc :=
  src.foldl histStep ⟨tgt, 0, 0⟩

/-- The per-table counters of the `stats` dict printed at the end of
`merge_databases`. -/
structure MergeStats where
  snapshotsAdded : Nat
  snapshotsSkipped : Nat
  postsAdded : Nat
  postsUpdated : Nat
  postsSkipped : Nat
  commentsAdded : Nat
  commentsUpdated : Nat
  commentsSkipped : Nat
  historyAdded : Nat
  historySkipped : Nat
deriving DecidableEq, Repr

/-- The successful body of `merge_databases`: the four per-table passes in
source order, producing the merged target and the stats. -/
def mergeOk (src tgt : Database) : Database × MergeStats :=
  let sa := mergeSnaps src.account_snapshots tgt.account_snapshots
  let pa := mergePosts src.posts tgt.posts
  let ca := mergeComments src.comments tgt.comments
  let ha := mergeHistory src.score_history tgt.score_history
  (⟨sa.tgt, pa.tgt, ca.tgt, ha.tgt⟩,
   ⟨sa.added, sa.skipped, pa.added, pa.updated, pa.skipped,
    ca.added, ca.updated, ca.skipped, ha.added, ha.skipped⟩)

/-- The failure modes of `merge_databases`: the two `Path.exists` guards
that print an error and `return False` before any connection is opened. -/
inductive MergeError where
  | sourceNotFound
  | targetNotFound
deriving DecidableEq, Repr

/-- `merge_databases(source, target)`.  A dataset that does not exist on
disk is `none`; the guards abort before any write. -/
def mergeDatabases (src tgt : Option Database) : Except MergeError (Database × MergeStats) :=
  match src with
  | none => .error .sourceNotFound
  | some s =>
      match tgt with
      | none => .error .targetNotFound
      | some t => .ok (mergeOk s t)

/-- The on-disk target dataset after a `merge_databases` run: unchanged
when the run failed, the merged database when it succeeded. -/
def mergeFinalTarget (src tgt : Option Database) : Option Database :=
  match mergeDatabases src tgt with
  | .ok (d, _) => some d
  | .error _ => tgt

/-! ## Entity Ledger ingestion: `save_posts` / `save_comments` -/

/-- The only ingestion-time database error the typed embedding can hit:
`sqlite3.IntegrityError` from the `NOT NULL` constraint on
`posts.post_id` / `comments.comment_id`. -/
inductive SaveError where
  | notNullViolation
deriving DecidableEq, Repr

/-- One post payload from the Reddit listing JSON; every field is read
with `.get`, so each is optional. -/
structure PostPayload where
  id : Option String := none
  subreddit : Option String := none
  title : Option String := none
  selftext : Option String := none
  url : Option String := none
  score : Option Int := none
  upvote_ratio : Option ℚ := none
  num_comments : Option Int := none
  created_utc : Option Nat := none
  is_self : Option Bool := none
  over_18 : Option Bool := none
  permalink : Option String := none
deriving DecidableEq, Repr

/-- One comment payload from the Reddit listing JSON. -/
structure CommentPayload where
  id : Option String := none
  subreddit : Option String := none
  body : Option String := none
  score : Option Int := none
  created_utc : Option Nat := none
  parent_id : Option String := none
  link_id : Option String := none
  permalink : Option String := none
deriving DecidableEq, Repr

/-- The body of the `for post in posts` loop of `save_posts`.  `dl` stands
for `download_image` (network; it already catches its own errors and
returns a path or `None`).  A `None` payload id makes the
`WHERE post_id = ?` lookup match nothing (SQL `NULL` equality), so the
insert path runs and violates `post_id TEXT NOT NULL`. -/
def savePostItem (username : String) (dl : String → String → Option String)
    (now : Nat) (db : Database) (p : PostPayload) : Except SaveError Database :=
  match p.id with
  | none => .error .notNullViolation
  | some pid =>
      match db.posts.find? (fun t => t.post_id == pid) with
      | some existing =>
          let newScore : Int := p.score.getD 0
          let db' : Database :=
            { db with posts := db.posts.map fun t =>
                if t.post_id == pid then
                  { t with score := some newScore, upvote_ratio := p.upvote_ratio,
                           num_comments := p.num_comments, last_updated := some now }
                else t }
          if existing.score == some newScore then
            .ok db'
          else
            .ok { db' with score_history :=
                    db'.score_history ++ [⟨"post", pid, some newScore, now⟩] }
      | none =>
          let imageUrl : String := p.url.getD ""
          let localImagePath : Option String := dl imageUrl pid
          let row : PostRow :=
            { post_id := pid, username := username, subreddit := p.subreddit,
              title := p.title, selftext := p.selftext, url := some imageUrl,
              local_image_path := localImagePath, score := p.score,
              upvote_ratio := p.upvote_ratio, num_comments := p.num_comments,
              created_utc := some (p.created_utc.getD 0),
              first_seen := some now, last_updated := some now,
              is_self := p.is_self, over_18 := p.over_18, permalink := p.permalink }
          .ok { db with posts := db.posts ++ [row],
                        score_history :=
                          db.score_history ++ [⟨"post", pid, some (p.score.getD 0), now⟩] }

/-- The `for post in posts` loop: the first uncaught exception aborts the
remaining iterations. -/
def savePostsRun (username : String) (dl : String → String → Option String)
    (now : Nat) (db : Database) : List PostPayload → Except SaveError Database
  | [] => .ok db
  | p :: ps =>
      match savePostItem username dl now db p with
      | .ok db' => savePostsRun username dl now db' ps
      | .error e => .error e

/-- `save_posts`, observed through the committed database: the single
`conn.commit()` after the loop runs only when no iteration raised, so on
an error the open transaction is discarded and the stored state is the
original one. -/
def savePosts (username : String) (dl : String → String → Option String)
    (now : Nat) (db : Database) (items : List PostPayload) : Database :=
  match savePostsRun username dl now db items with
  | .ok db' => db'
  | .error _ => db

/-- The body of the `for comment in comments` loop of `save_comments`. -/
def saveCommentItem (username : String) (now : Nat) (db : Database)
    (c : CommentPayload) : Except SaveError Database :=
  match c.id with
  | none => .error .notNullViolation
  | some cid =>
      match db.comments.find? (fun t => t.comment_id == cid) with
      | some existing =>
          let newScore : Int := c.score.getD 0
          let db' : Database :=
            { db with comments := db.comments.map fun t =>
                if t.comment_id == cid then
                  { t with score := some newScore, last_updated := some now }
                else t }
          if existing.score == some newScore then
            .ok db'
          else
            .ok { db' with score_history :=
                    db'.score_history ++ [⟨"comment", cid, some newScore, now⟩] }
      | none =>
          let row : CommentRow :=
            { comment_id := cid, username := username, subreddit := c.subreddit,
              body := c.body, score := c.score,
              created_utc := some (c.created_utc.getD 0),
              first_seen := some now, last_updated := some now,
              parent_id := c.parent_id, link_id := c.link_id, permalink := c.permalink }
          .ok { db with comments := db.comments ++ [row],
                        score_history :=
                          db.score_history ++ [⟨"comment", cid, some (c.score.getD 0), now⟩] }

/-- The `for comment in comments` loop of `save_comments`. -/
def saveCommentsRun (username : String) (now : Nat) (db : Database) :
    List CommentPayload → Except SaveError Database
  | [] => .ok db
  | c :: cs =>
      match saveCommentItem username now db c with
      | .ok db' => saveCommentsRun username now db' cs
      | .error e => .error e

/-- `save_comments`, observed through the committed database. -/
def saveComments (username : String) (now : Nat) (db : Database)
    (items : List CommentPayload) : Database :=
  match saveCommentsRun username now db items with
  | .ok db' => db'
  | .error _ => db

/-! ## Derived views of the merge used by the proofs

The per-table folds above carry counters; the definitions below compute
just the evolving table (`..MergeList`), the sequence of SQL statements
the pass issues (`..Trace`), and closed forms of the result.  Agreement
with the folds is proved, not assumed. -/

/-- Evolving `account_snapshots` target of the merge pass, counters
dropped. -/
def snapMergeList (tgt : List SnapshotRow) : List SnapshotRow → List SnapshotRow
  | [] => tgt
  | r :: rs =>
      if tgt.any (snapMatch r) then snapMergeList tgt rs
      else snapMergeList (tgt ++ [r]) rs

/-- Evolving `posts` target of the merge pass, counters dropped. -/
def postMergeList (tgt : List PostRow) : List PostRow → List PostRow
  | [] => tgt
  | r :: rs =>
      match tgt.find? (fun t => t.post_id == r.post_id) with
      | none => postMergeList (tgt ++ [r]) rs
      | some e =>
          match r.last_updated, e.last_updated with
          | some slu, some tlu =>
              if tlu < slu then postMergeList (applyPostUpdate r tgt) rs
              else postMergeList tgt rs
          | _, _ => postMergeList tgt rs

/-- Evolving `comments` target of the merge pass, counters dropped. -/
def commMergeList (tgt : List CommentRow) : List CommentRow → List CommentRow
  | [] => tgt
  | r :: rs =>
      match tgt.find? (fun t => t.comment_id == r.comment_id) with
      | none => commMergeList (tgt ++ [r]) rs
      | some e =>
          match r.last_updated, e.last_updated with
          | some slu, some tlu =>
              if tlu < slu then commMergeList (applyCommentUpdate r tgt) rs
              else commMergeList tgt rs
          | _, _ => commMergeList tgt rs

/-- Evolving `score_history` target of the merge pass, counters dropped. -/
def histMergeList (tgt : List ScoreRow) : List ScoreRow → List ScoreRow
  | [] => tgt
  | r :: rs =>
      if tgt.any (histMatch r) then histMergeList tgt rs
      else histMergeList (tgt ++ [r]) rs

/-- What one target post becomes after the whole pass: found by at most
one source row of the same id (when ids are unique), updated when that
source row is strictly newer with both timestamps present. -/
def resolveP (src : List PostRow) (b : PostRow) : PostRow :=
  match src.find? (fun a => a.post_id == b.post_id) with
  | none => b
  | some a =>
      match a.last_updated, b.last_updated with
      | some slu, some tlu => if tlu < slu then updP b a else b
      | _, _ => b

/-- Source posts whose id is absent from the target: the inserted rows. -/
def newPosts (src tgt : List PostRow) : List PostRow :=
  src.filter fun a => !(tgt.any fun b => b.post_id == a.post_id)

/-- What one target comment becomes after the whole pass. -/
def resolveC (src : List CommentRow) (b : CommentRow) : CommentRow :=
  match src.find? (fun a => a.comment_id == b.comment_id) with
  | none => b
  | some a =>
      match a.last_updated, b.last_updated with
      | some slu, some tlu => if tlu < slu then updC b a else b
      | _, _ => b

/-- Source comments whose id is absent from the target. -/
def newComments (src tgt : List CommentRow) : List CommentRow :=
  src.filter fun a => !(tgt.any fun b => b.comment_id == a.comment_id)

/-- Source snapshots whose `(username, timestamp)` identity is absent from
the target. -/
def newSnaps (src tgt : List SnapshotRow) : List SnapshotRow :=
  src.filter fun a => !(tgt.any (snapMatch a))

/-- Source history rows whose `(item_type, item_id, timestamp)` identity is
absent from the target. -/
def newHist (src tgt : List ScoreRow) : List ScoreRow :=
  src.filter fun a => !(tgt.any (histMatch a))

/-- Pairwise-distinct keys under a key function: the list-model reading of
a SQL `UNIQUE` constraint. -/
def UniqKeys {α κ : Type} (key : α → κ) (l : List α) : Prop :=
  l.Pairwise fun x y => key x ≠ key y

/-- Uniqueness of `posts.post_id` (the `UNIQUE` column constraint). -/
def PostKeysOk (l : List PostRow) : Prop :=
  UniqKeys PostRow.post_id l

/-- Uniqueness of `comments.comment_id`. -/
def CommKeysOk (l : List CommentRow) : Prop :=
  UniqKeys CommentRow.comment_id l

/-- At most one snapshot per `(username, timestamp)` identity. -/
def SnapKeysOk (l : List SnapshotRow) : Prop :=
  UniqKeys (fun r => (r.username, r.timestamp)) l

/-- At most one history row per `(item_type, item_id, timestamp)`
identity. -/
def HistKeysOk (l : List ScoreRow) : Prop :=
  UniqKeys (fun r => (r.item_type, r.item_id, r.timestamp)) l

/-! ## The statement trace of one `merge_databases` run (for atomicity) -/

/-- One SQL statement issued by `merge_databases` on the target
connection.  The whole run issues writes and a single final `commit`. -/
inductive MergeOp where
  | insertSnap (r : SnapshotRow)
  | insertPost (r : PostRow)
  | updatePost (r : PostRow)
  | insertComment (r : CommentRow)
  | updateComment (r : CommentRow)
  | insertHist (r : ScoreRow)
  | commit
deriving DecidableEq, Repr

/-- State of the target SQLite connection: the durable committed database
and the in-transaction pending view. -/
structure ConnState where
  committed : Database
  pending : Database
deriving DecidableEq, Repr

/-- Effect of one statement: writes touch only the pending view;
`commit` makes the pending view durable. -/
def applyOp (s : ConnState) (op : MergeOp) : ConnState :=
  match op with
  | .insertSnap r =>
      { s with pending := { s.pending with
          account_snapshots := s.pending.account_snapshots ++ [r] } }
  | .insertPost r =>
      { s with pending := { s.pending with posts := s.pending.posts ++ [r] } }
  | .updatePost r =>
      { s with pending := { s.pending with posts := applyPostUpdate r s.pending.posts } }
  | .insertComment r =>
      { s with pending := { s.pending with comments := s.pending.comments ++ [r] } }
  | .updateComment r =>
      { s with pending := { s.pending with comments := applyCommentUpdate r s.pending.comments } }
  | .insertHist r =>
      { s with pending := { s.pending with score_history := s.pending.score_history ++ [r] } }
  | .commit => { s with committed := s.pending }

/-- Run a statement sequence on a connection. -/
def execOps (s : ConnState) (ops : List MergeOp) : ConnState :=
  ops.foldl applyOp s

/-- Writes issued by the `account_snapshots` loop. -/
def snapTrace (tgt : List SnapshotRow) : List SnapshotRow → List MergeOp
  | [] => []
  | r :: rs =>
      if tgt.any (snapMatch r) then snapTrace tgt rs
      else .insertSnap r :: snapTrace (tgt ++ [r]) rs

/-- Writes issued by the `posts` loop. -/
def postTrace (tgt : List PostRow) : List PostRow → List MergeOp
  | [] => []
  | r :: rs =>
      match tgt.find? (fun t => t.post_id == r.post_id) with
      | none => .insertPost r :: postTrace (tgt ++ [r]) rs
      | some e =>
          match r.last_updated, e.last_updated with
          | some slu, some tlu =>
              if tlu < slu then .updatePost r :: postTrace (applyPostUpdate r tgt) rs
              else postTrace tgt rs
          | _, _ => postTrace tgt rs

/-- Writes issued by the `comments` loop. -/
def commTrace (tgt : List CommentRow) : List CommentRow → List MergeOp
  | [] => []
  | r :: rs =>
      match tgt.find? (fun t => t.comment_id == r.comment_id) with
      | none => .insertComment r :: commTrace (tgt ++ [r]) rs
      | some e =>
          match r.last_updated, e.last_updated with
          | some slu, some tlu =>
              if tlu < slu then .updateComment r :: commTrace (applyCommentUpdate r tgt) rs
              else commTrace tgt rs
          | _, _ => commTrace tgt rs

/-- Writes issued by the `score_history` loop. -/
def histTrace (tgt : List ScoreRow) : List ScoreRow → List MergeOp
  | [] => []
  | r :: rs =>
      if tgt.any (histMatch r) then histTrace tgt rs
      else .insertHist r :: histTrace (tgt ++ [r]) rs

/-- The full statement sequence of one successful `merge_databases` run:
the four table passes in program order, then the single
`target_conn.commit()`. -/
def mergeTrace (src tgt : Database) : List MergeOp :=
  snapTrace tgt.account_snapshots src.account_snapshots ++
  postTrace tgt.posts src.posts ++
  commTrace tgt.comments src.comments ++
  histTrace tgt.score_history src.score_history ++
  [.commit]

/-- The `posts` loop takes its skip branch on row `r` against target
table `t`: the id is already present and the guarded update does not
fire. -/
def postSkips (t : List PostRow) (r : PostRow) : Prop :=
  match t.find? (fun x => x.post_id == r.post_id) with
  | none => False
  | some e =>
      match r.last_updated, e.last_updated with
      | some slu, some tlu => ¬ tlu < slu
      | _, _ => True

/-- The `comments` loop takes its skip branch on row `r` against target
table `t`. -/
def commSkips (t : List CommentRow) (r : CommentRow) : Prop :=
  match t.find? (fun x => x.comment_id == r.comment_id) with
  | none => False
  | some e =>
      match r.last_updated, e.last_updated with
      | some slu, some tlu => ¬ tlu < slu
      | _, _ => True

/-- A small concrete source dataset, used to instantiate theorems with
hypotheses at concrete inputs. -/
def exSrc : Database :=
  { account_snapshots := [{ username := "alice", timestamp := 2, total_karma := some 10 }],
    posts := [{ post_id := "p1", username := "alice", score := some 7, last_updated := some 5 }],
    comments := [{ comment_id := "c1", username := "alice", score := some 3, last_updated := some 5 }],
    score_history := [{ item_type := "post", item_id := "p1", score := some 7, timestamp := 2 }] }

/-- A small concrete target dataset. -/
def exTgt : Database :=
  { account_snapshots := [{ username := "alice", timestamp := 1, total_karma := some 9 }],
    posts := [{ post_id := "p1", username := "alice", score := some 6, last_updated := some 4 }],
    comments := [{ comment_id := "c2", username := "alice", score := some 1, last_updated := some 4 }],
    score_history := [] }

/-- A fresher observation of the post stored in `exTgt`. -/
def exNewPost : PostRow :=
  { post_id := "p1", username := "alice", score := some 8, last_updated := some 6 }

/-- The post row held by `exTgt`. -/
def exTgtPost : PostRow :=
  { post_id := "p1", username := "alice", score := some 6, last_updated := some 4 }

/-- A fresher observation of the comment stored in `exTgt`. -/
def exNewComment : CommentRow :=
  { comment_id := "c2", username := "alice", score := some 4, last_updated := some 6 }

/-- The comment row held by `exTgt`. -/
def exTgtComment : CommentRow :=
  { comment_id := "c2", username := "alice", score := some 1, last_updated := some 4 }

/-- The comment row of the commutativity counterexample, side A. -/
def cexCommentA : CommentRow :=
  { comment_id := "c", username := "alice", score := some 5, last_updated := some 10 }

/-- The comment row of the commutativity counterexample, side B: same id
and `last_updated`, different score. -/
def cexCommentB : CommentRow :=
  { comment_id := "c", username := "alice", score := some 3, last_updated := some 10 }

/-- Counterexample dataset A. -/
def cexA : Database := { comments := [cexCommentA] }

/-- Counterexample dataset B. -/
def cexB : Database := { comments := [cexCommentB] }

/-- The fields of a post row that `merge_databases` never writes. -/
def postFixedEq (a b : PostRow) : Prop :=
  a.username = b.username ∧ a.subreddit = b.subreddit ∧ a.title = b.title ∧
  a.selftext = b.selftext ∧ a.url = b.url ∧ a.local_image_path = b.local_image_path ∧
  a.created_utc = b.created_utc ∧ a.first_seen = b.first_seen ∧
  a.is_self = b.is_self ∧ a.over_18 = b.over_18 ∧ a.permalink = b.permalink

/-- The fields of a comment row that `merge_databases` never writes. -/
def commFixedEq (a b : CommentRow) : Prop :=
  a.username = b.username ∧ a.subreddit = b.subreddit ∧ a.body = b.body ∧
  a.created_utc = b.created_utc ∧ a.first_seen = b.first_seen ∧
  a.parent_id = b.parent_id ∧ a.link_id = b.link_id ∧ a.permalink = b.permalink

/-! ## Generic helper lemmas -/

/-- Two members of a list with pairwise-distinct keys and equal keys are
the same row. -/
theorem UniqKeys.eq_of_key_eq {α κ : Type} {key : α → κ} {l : List α}
    (h : UniqKeys key l) {a b : α} (ha : a ∈ l) (hb : b ∈ l)
    (hk : key a = key b) : a = b := by
  induction l with
  | nil => cases ha
  | cons x xs ih =>
      rcases List.pairwise_cons.mp h with ⟨hx, hxs⟩
      rcases List.mem_cons.mp ha with rfl | ha' <;>
        rcases List.mem_cons.mp hb with rfl | hb'
      · rfl
      · exact absurd hk (hx b hb')
      · exact absurd hk.symm (hx a ha')
      · exact ih hxs ha' hb'

/-- Tail of a uniquely-keyed list is uniquely keyed. -/
theorem UniqKeys.of_cons {α κ : Type} {key : α → κ} {x : α} {l : List α}
    (h : UniqKeys key (x :: l)) : UniqKeys key l :=
  (List.pairwise_cons.mp h).2

/-- The head's key does not occur in the tail. -/
theorem UniqKeys.head_not_in_tail {α κ : Type} {key : α → κ} {x : α} {l : List α}
    (h : UniqKeys key (x :: l)) : ∀ y ∈ l, key x ≠ key y :=
  (List.pairwise_cons.mp h).1

/-- Appending a row whose key is fresh preserves key uniqueness. -/
theorem UniqKeys.append_singleton {α κ : Type} {key : α → κ} {l : List α} {a : α}
    (h : UniqKeys key l) (ha : ∀ y ∈ l, key y ≠ key a) :
    UniqKeys key (l ++ [a]) := by
  refine List.pairwise_append.mpr ⟨h, List.pairwise_singleton _ _, ?_⟩
  intro y hy b hb
  rcases List.mem_singleton.mp hb with rfl
  exact ha y hy

/-- Key-preserving maps preserve key uniqueness. -/
theorem UniqKeys.map_of_key_eq {α κ : Type} {key : α → κ} {l : List α}
    (f : α → α) (hf : ∀ x, key (f x) = key x) (h : UniqKeys key l) :
    UniqKeys key (l.map f) := by
  rw [UniqKeys, List.pairwise_map]
  exact h.imp fun {a b} hab => by simpa [hf] using hab

/-- Sublists (in particular `filter`) preserve key uniqueness. -/
theorem UniqKeys.of_sublist {α κ : Type} {key : α → κ} {l l' : List α}
    (hs : List.Sublist l' l) (h : UniqKeys key l) : UniqKeys key l' :=
  List.Pairwise.sublist hs h

/-- `find?` on a uniquely-keyed list locates a known member by its key. -/
theorem find?_eq_some_of_uniq {α κ : Type} [DecidableEq κ] {key : α → κ}
    {l : List α} (h : UniqKeys key l) {e : α} (he : e ∈ l) {k : κ}
    (hk : key e = k) : l.find? (fun t => key t == k) = some e := by
  cases hf : l.find? (fun t => key t == k) with
  | none =>
      rw [List.find?_eq_none] at hf
      exact absurd (by simp [hk]) (hf e he)
  | some a =>
      have hpa : key a = k := by simpa using List.find?_some hf
      have hma : a ∈ l := List.mem_of_find?_eq_some hf
      rw [h.eq_of_key_eq hma he (hk ▸ hpa)]

/-- `find?` misses a list in which the key is absent. -/
theorem find?_eq_none_of_not_key {α κ : Type} [DecidableEq κ] {key : α → κ}
    {l : List α} {k : κ} (h : ∀ t ∈ l, key t ≠ k) :
    l.find? (fun t => key t == k) = none := by
  rw [List.find?_eq_none]
  intro x hx
  simp [h x hx]

/-! ## Agreement between the counter-carrying folds and the list views -/

theorem foldl_snapStep_tgt (src : List SnapshotRow) :
    ∀ t a s, (List.foldl snapStep ⟨t, a, s⟩ src).tgt = snapMergeList t src := by
  induction src with
  | nil => intro t a s; rfl
  | cons r rs ih =>
      intro t a s
      cases hc : t.any (snapMatch r) <;>
        simp [List.foldl_cons, snapStep, snapMergeList, hc, ih]

theorem mergeSnaps_tgt (src tgt : List SnapshotRow) :
    (mergeSnaps src tgt).tgt = snapMergeList tgt src :=
  foldl_snapStep_tgt src tgt 0 0

theorem foldl_postStep_tgt (src : List PostRow) :
    ∀ t a u s, (List.foldl postStep ⟨t, a, u, s⟩ src).tgt = postMergeList t src := by
  induction src with
  | nil => intro t a u s; rfl
  | cons r rs ih =>
      intro t a u s
      cases hf : t.find? (fun x => x.post_id == r.post_id) with
      | none => simp [List.foldl_cons, postStep, postMergeList, hf, ih]
      | some e =>
          cases hr : r.last_updated with
          | none => simp [List.foldl_cons, postStep, postMergeList, hf, hr, ih]
          | some slu =>
              cases he : e.last_updated with
              | none => simp [List.foldl_cons, postStep, postMergeList, hf, hr, he, ih]
              | some tlu =>
                  by_cases hlt : tlu < slu <;>
                    simp [List.foldl_cons, postStep, postMergeList, hf, hr, he, hlt, ih]

theorem mergePosts_tgt (src tgt : List PostRow) :
    (mergePosts src tgt).tgt = postMergeList tgt src :=
  foldl_postStep_tgt src tgt 0 0 0

theorem foldl_commStep_tgt (src : List CommentRow) :
    ∀ t a u s, (List.foldl commStep ⟨t, a, u, s⟩ src).tgt = commMergeList t src := by
  induction src with
  | nil => intro t a u s; rfl
  | cons r rs ih =>
      intro t a u s
      cases hf : t.find? (fun x => x.comment_id == r.comment_id) with
      | none => simp [List.foldl_cons, commStep, commMergeList, hf, ih]
      | some e =>
          cases hr : r.last_updated with
          | none => simp [List.foldl_cons, commStep, commMergeList, hf, hr, ih]
          | some slu =>
              cases he : e.last_updated with
              | none => simp [List.foldl_cons, commStep, commMergeList, hf, hr, he, ih]
              | some tlu =>
                  by_cases hlt : tlu < slu <;>
                    simp [List.foldl_cons, commStep, commMergeList, hf, hr, he, hlt, ih]

theorem mergeComments_tgt (src tgt : List CommentRow) :
    (mergeComments src tgt).tgt = commMergeList tgt src :=
  foldl_commStep_tgt src tgt 0 0 0

theorem foldl_histStep_tgt (src : List ScoreRow) :
    ∀ t a s, (List.foldl histStep ⟨t, a, s⟩ src).tgt = histMergeList t src := by
  induction src with
  | nil => intro t a s; rfl
  | cons r rs ih =>
      intro t a s
      cases hc : t.any (histMatch r) <;>
        simp [List.foldl_cons, histStep, histMergeList, hc, ih]

theorem mergeHistory_tgt (src tgt : List ScoreRow) :
    (mergeHistory src tgt).tgt = histMergeList tgt src :=
  foldl_histStep_tgt src tgt 0 0

/-! ## Snapshot / history pass: insert-only structure -/

theorem snapMergeList_mono (src : List SnapshotRow) :
    ∀ t x, x ∈ t → x ∈ snapMergeList t src := by
  induction src with
  | nil => intro t x hx; exact hx
  | cons r rs ih =>
      intro t x hx
      cases hc : t.any (snapMatch r) <;> simp only [snapMergeList, hc]
      · simp only [if_false, Bool.false_eq_true]
        exact ih (t ++ [r]) x (List.mem_append_left _ hx)
      · simp only [if_true]
        exact ih t x hx

theorem snapMergeList_complete (src : List SnapshotRow) :
    ∀ t r, r ∈ src → ∃ y ∈ snapMergeList t src, snapMatch r y = true := by
  induction src with
  | nil => intro t r hr; cases hr
  | cons a rs ih =>
      intro t r hr
      rcases List.mem_cons.mp hr with rfl | hr'
      · cases hc : t.any (snapMatch r) <;> simp only [snapMergeList, hc]
        · simp only [if_false, Bool.false_eq_true]
          refine ⟨r, snapMergeList_mono rs (t ++ [r]) r (List.mem_append_right _ (List.mem_singleton.mpr rfl)), ?_⟩
          simp [snapMatch]
        · simp only [if_true]
          rcases List.any_eq_true.mp hc with ⟨y, hy, hmy⟩
          exact ⟨y, snapMergeList_mono rs t y hy, hmy⟩
      · cases hc : t.any (snapMatch a) <;> simp only [snapMergeList, hc]
        · simp only [if_false, Bool.false_eq_true]
          exact ih (t ++ [a]) r hr'
        · simp only [if_true]
          exact ih t r hr'

theorem foldl_snapStep_all_match (src : List SnapshotRow) :
    ∀ t a s, (∀ r ∈ src, t.any (snapMatch r) = true) →
      List.foldl snapStep ⟨t, a, s⟩ src = ⟨t, a, s + src.length⟩ := by
  induction src with
  | nil => intro t a s _; rfl
  | cons r rs ih =>
      intro t a s h
      have hr := h r (List.mem_cons_self r rs)
      have hrest : ∀ x ∈ rs, t.any (snapMatch x) = true :=
        fun x hx => h x (List.mem_cons_of_mem r hx)
      simp only [List.foldl_cons, snapStep, hr, if_true]
      rw [ih t a (s + 1) hrest]
      simp only [SnapAcc.mk.injEq, List.length_cons, true_and]
      omega

theorem histMergeList_mono (src : List ScoreRow) :
    ∀ t x, x ∈ t → x ∈ histMergeList t src := by
  induction src with
  | nil => intro t x hx; exact hx
  | cons r rs ih =>
      intro t x hx
      cases hc : t.any (histMatch r) <;> simp only [histMergeList, hc]
      · simp only [if_false, Bool.false_eq_true]
        exact ih (t ++ [r]) x (List.mem_append_left _ hx)
      · simp only [if_true]
        exact ih t x hx

theorem histMergeList_complete (src : List ScoreRow) :
    ∀ t r, r ∈ src → ∃ y ∈ histMergeList t src, histMatch r y = true := by
  induction src with
  | nil => intro t r hr; cases hr
  | cons a rs ih =>
      intro t r hr
      rcases List.mem_cons.mp hr with rfl | hr'
      · cases hc : t.any (histMatch r) <;> simp only [histMergeList, hc]
        · simp only [if_false, Bool.false_eq_true]
          refine ⟨r, histMergeList_mono rs (t ++ [r]) r (List.mem_append_right _ (List.mem_singleton.mpr rfl)), ?_⟩
          simp [histMatch]
        · simp only [if_true]
          rcases List.any_eq_true.mp hc with ⟨y, hy, hmy⟩
          exact ⟨y, histMergeList_mono rs t y hy, hmy⟩
      · cases hc : t.any (histMatch a) <;> simp only [histMergeList, hc]
        · simp only [if_false, Bool.false_eq_true]
          exact ih (t ++ [a]) r hr'
        · simp only [if_true]
          exact ih t r hr'

theorem foldl_histStep_all_match (src : List ScoreRow) :
    ∀ t a s, (∀ r ∈ src, t.any (histMatch r) = true) →
      List.foldl histStep ⟨t, a, s⟩ src = ⟨t, a, s + src.length⟩ := by
  induction src with
  | nil => intro t a s _; rfl
  | cons r rs ih =>
      intro t a s h
      have hr := h r (List.mem_cons_self r rs)
      have hrest : ∀ x ∈ rs, t.any (histMatch x) = true :=
        fun x hx => h x (List.mem_cons_of_mem r hx)
      simp only [List.foldl_cons, histStep, hr, if_true]
      rw [ih t a (s + 1) hrest]
      simp only [HistAcc.mk.injEq, List.length_cons, true_and]
      omega

/-- The snapshot pass appends; it never rewrites an existing target row. -/
theorem snapMergeList_append_form (src : List SnapshotRow) :
    ∀ t, ∃ rest, snapMergeList t src = t ++ rest ∧ ∀ r ∈ rest, r ∈ src := by
  induction src with
  | nil => intro t; exact ⟨[], by simp [snapMergeList]⟩
  | cons a rs ih =>
      intro t
      cases hc : t.any (snapMatch a) <;> simp only [snapMergeList, hc]
      · simp only [if_false, Bool.false_eq_true]
        rcases ih (t ++ [a]) with ⟨rest, heq, hmem⟩
        refine ⟨a :: rest, ?_, ?_⟩
        · rw [heq, List.append_assoc]; rfl
        · intro r hr
          rcases List.mem_cons.mp hr with rfl | hr'
          · exact List.mem_cons_self _ _
          · exact List.mem_cons_of_mem _ (hmem r hr')
      · simp only [if_true]
        rcases ih t with ⟨rest, heq, hmem⟩
        exact ⟨rest, heq, fun r hr => List.mem_cons_of_mem _ (hmem r hr)⟩

/-- The history pass appends; it never rewrites an existing target row. -/
theorem histMergeList_append_form (src : List ScoreRow) :
    ∀ t, ∃ rest, histMergeList t src = t ++ rest ∧ ∀ r ∈ rest, r ∈ src := by
  induction src with
  | nil => intro t; exact ⟨[], by simp [histMergeList]⟩
  | cons a rs ih =>
      intro t
      cases hc : t.any (histMatch a) <;> simp only [histMergeList, hc]
      · simp only [if_false, Bool.false_eq_true]
        rcases ih (t ++ [a]) with ⟨rest, heq, hmem⟩
        refine ⟨a :: rest, ?_, ?_⟩
        · rw [heq, List.append_assoc]; rfl
        · intro r hr
          rcases List.mem_cons.mp hr with rfl | hr'
          · exact List.mem_cons_self _ _
          · exact List.mem_cons_of_mem _ (hmem r hr')
      · simp only [if_true]
        rcases ih t with ⟨rest, heq, hmem⟩
        exact ⟨rest, heq, fun r hr => List.mem_cons_of_mem _ (hmem r hr)⟩

/-! ## Posts pass: closed form under unique keys -/

theorem updP_post_id (t r : PostRow) : (updP t r).post_id = t.post_id := rfl

theorem applyPostUpdate_elem_post_id (r t : PostRow) :
    ((if t.post_id == r.post_id then updP t r else t)).post_id = t.post_id := by
  by_cases h : t.post_id == r.post_id <;> simp [h, updP]

theorem applyPostUpdate_keysOk {tgt : List PostRow} (r : PostRow)
    (h : PostKeysOk tgt) : PostKeysOk (applyPostUpdate r tgt) :=
  UniqKeys.map_of_key_eq _ (fun t => applyPostUpdate_elem_post_id r t) h

theorem any_key_applyPostUpdate (a : PostRow) (tgt : List PostRow) (pid : String) :
    ((applyPostUpdate a tgt).any fun b => b.post_id == pid) =
      (tgt.any fun b => b.post_id == pid) := by
  unfold applyPostUpdate
  rw [List.any_map]
  congr 1
  funext t
  by_cases h : t.post_id = a.post_id <;> simp [Function.comp, h, updP]

theorem resolveP_of_absent {src : List PostRow} {b : PostRow}
    (h : ∀ x ∈ src, x.post_id ≠ b.post_id) : resolveP src b = b := by
  unfold resolveP
  rw [find?_eq_none_of_not_key h]

theorem resolveP_cons_of_ne {a b : PostRow} {src : List PostRow}
    (h : a.post_id ≠ b.post_id) : resolveP (a :: src) b = resolveP src b := by
  unfold resolveP
  rw [List.find?_cons_of_neg]
  simp [h]

theorem postMergeList_closed (src : List PostRow) :
    ∀ tgt : List PostRow, PostKeysOk src → PostKeysOk tgt →
      postMergeList tgt src = tgt.map (resolveP src) ++ newPosts src tgt := by
  induction src with
  | nil =>
      intro tgt _ _
      have h1 : List.map (resolveP []) tgt = List.map id tgt :=
        List.map_congr_left fun b _ => rfl
      simp [postMergeList, newPosts, h1]
  | cons a rest ih =>
      intro tgt hsrc htgt
      have hresta : ∀ x ∈ rest, x.post_id ≠ a.post_id :=
        fun x hx => (hsrc.head_not_in_tail x hx).symm
      cases hf : tgt.find? (fun t => t.post_id == a.post_id) with
      | none =>
          have hnota : ∀ t ∈ tgt, t.post_id ≠ a.post_id := by
            intro t ht
            have := (List.find?_eq_none.mp hf) t ht
            simpa using this
          have htgt' : PostKeysOk (tgt ++ [a]) :=
            htgt.append_singleton (fun y hy => hnota y hy)
          have hLHS : postMergeList tgt (a :: rest) = postMergeList (tgt ++ [a]) rest := by
            simp only [postMergeList, hf]
          rw [hLHS, ih (tgt ++ [a]) hsrc.of_cons htgt']
          have hmap : (tgt ++ [a]).map (resolveP rest) =
              tgt.map (resolveP (a :: rest)) ++ [a] := by
            rw [List.map_append]
            congr 1
            · exact List.map_congr_left fun b hb =>
                (resolveP_cons_of_ne (fun hk => hnota b hb hk.symm)).symm
            · simp [resolveP_of_absent hresta]
          have hnew : newPosts rest (tgt ++ [a]) = newPosts rest tgt := by
            unfold newPosts
            apply List.filter_congr
            intro x hx
            have hax : a.post_id ≠ x.post_id := fun hk => hresta x hx hk.symm
            simp [List.any_append, hax]
          have hnew2 : newPosts (a :: rest) tgt = a :: newPosts rest tgt := by
            unfold newPosts
            rw [List.filter_cons_of_pos]
            simp only [Bool.not_eq_true']
            rw [List.any_eq_false]
            intro t ht
            simp [hnota t ht]
          rw [hmap, hnew, hnew2, List.append_assoc]
          rfl
      | some e =>
          have he_mem : e ∈ tgt := List.mem_of_find?_eq_some hf
          have he_id : e.post_id = a.post_id := by
            simpa using List.find?_some hf
          have htany : (tgt.any fun b => b.post_id == a.post_id) = true :=
            List.any_eq_true.mpr ⟨e, he_mem, by simp [he_id]⟩
          have hnew2 : newPosts (a :: rest) tgt = newPosts rest tgt := by
            unfold newPosts
            rw [List.filter_cons_of_neg]
            simp [htany]
          cases hra : a.last_updated with
          | some slu =>
              cases hre : e.last_updated with
              | some tlu =>
                  by_cases hlt : tlu < slu
                  · -- update branch
                    have hLHS : postMergeList tgt (a :: rest) =
                        postMergeList (applyPostUpdate a tgt) rest := by
                      simp only [postMergeList, hf, hra, hre, if_pos hlt]
                    rw [hLHS, ih (applyPostUpdate a tgt) hsrc.of_cons
                          (applyPostUpdate_keysOk a htgt)]
                    have hmap : (applyPostUpdate a tgt).map (resolveP rest) =
                        tgt.map (resolveP (a :: rest)) := by
                      unfold applyPostUpdate
                      rw [List.map_map]
                      apply List.map_congr_left
                      intro t ht
                      by_cases hid : t.post_id = a.post_id
                      · have hte : t = e := htgt.eq_of_key_eq ht he_mem (hid.trans he_id.symm)
                        have hg : (fun t => if t.post_id == a.post_id then updP t a else t) t
                            = updP t a := by simp [hid]
                        have habs : ∀ x ∈ rest, x.post_id ≠ (updP t a).post_id := by
                          intro x hx
                          rw [updP_post_id, hid]
                          exact hresta x hx
                        have h1 : (resolveP rest ∘ fun t =>
                            if t.post_id == a.post_id then updP t a else t) t
                            = updP t a := by
                          simp only [Function.comp, hg]
                          exact resolveP_of_absent habs
                        rw [h1]
                        unfold resolveP
                        rw [List.find?_cons_of_pos]
                        · subst hte
                          simp [hra, hre, hlt]
                        · simp [hid]
                      · have hg : (fun t => if t.post_id == a.post_id then updP t a else t) t
                            = t := by simp [hid]
                        simp only [Function.comp, hg]
                        exact (resolveP_cons_of_ne fun hk => hid hk.symm).symm
                    have hnew : newPosts rest (applyPostUpdate a tgt) = newPosts rest tgt := by
                      unfold newPosts
                      apply List.filter_congr
                      intro x _
                      rw [any_key_applyPostUpdate]
                    rw [hmap, hnew, hnew2]
                  · -- both timestamps present, source not strictly newer: skip
                    have hLHS : postMergeList tgt (a :: rest) = postMergeList tgt rest := by
                      simp only [postMergeList, hf, hra, hre, if_neg hlt]
                    rw [hLHS, ih tgt hsrc.of_cons htgt, hnew2]
                    congr 1
                    apply List.map_congr_left
                    intro t ht
                    by_cases hid : t.post_id = a.post_id
                    · have hte : t = e := htgt.eq_of_key_eq ht he_mem (hid.trans he_id.symm)
                      have habs : ∀ x ∈ rest, x.post_id ≠ t.post_id := by
                        intro x hx; rw [hid]; exact hresta x hx
                      rw [resolveP_of_absent habs]
                      unfold resolveP
                      rw [List.find?_cons_of_pos]
                      · subst hte
                        simp [hra, hre, hlt]
                      · simp [hid]
                    · exact (resolveP_cons_of_ne fun hk => hid hk.symm).symm
              | none =>
                  have hLHS : postMergeList tgt (a :: rest) = postMergeList tgt rest := by
                    simp only [postMergeList, hf, hra, hre]
                  rw [hLHS, ih tgt hsrc.of_cons htgt, hnew2]
                  congr 1
                  apply List.map_congr_left
                  intro t ht
                  by_cases hid : t.post_id = a.post_id
                  · have hte : t = e := htgt.eq_of_key_eq ht he_mem (hid.trans he_id.symm)
                    have habs : ∀ x ∈ rest, x.post_id ≠ t.post_id := by
                      intro x hx; rw [hid]; exact hresta x hx
                    rw [resolveP_of_absent habs]
                    unfold resolveP
                    rw [List.find?_cons_of_pos]
                    · subst hte
                      simp [hra, hre]
                    · simp [hid]
                  · exact (resolveP_cons_of_ne fun hk => hid hk.symm).symm
          | none =>
              have hLHS : postMergeList tgt (a :: rest) = postMergeList tgt rest := by
                simp only [postMergeList, hf, hra]
              rw [hLHS, ih tgt hsrc.of_cons htgt, hnew2]
              congr 1
              apply List.map_congr_left
              intro t ht
              by_cases hid : t.post_id = a.post_id
              · have hte : t = e := htgt.eq_of_key_eq ht he_mem (hid.trans he_id.symm)
                have habs : ∀ x ∈ rest, x.post_id ≠ t.post_id := by
                  intro x hx; rw [hid]; exact hresta x hx
                rw [resolveP_of_absent habs]
                unfold resolveP
                rw [List.find?_cons_of_pos]
                · simp [hra]
                · simp [hid]
              · exact (resolveP_cons_of_ne fun hk => hid hk.symm).symm

/-! ## Comments pass: closed form under unique keys -/

theorem updC_comment_id (t r : CommentRow) : (updC t r).comment_id = t.comment_id := rfl

theorem applyCommentUpdate_elem_comment_id (r t : CommentRow) :
    ((if t.comment_id == r.comment_id then updC t r else t)).comment_id = t.comment_id := by
  by_cases h : t.comment_id == r.comment_id <;> simp [h, updC]

theorem applyCommentUpdate_keysOk {tgt : List CommentRow} (r : CommentRow)
    (h : CommKeysOk tgt) : CommKeysOk (applyCommentUpdate r tgt) :=
  UniqKeys.map_of_key_eq _ (fun t => applyCommentUpdate_elem_comment_id r t) h

theorem any_key_applyCommentUpdate (a : CommentRow) (tgt : List CommentRow) (pid : String) :
    ((applyCommentUpdate a tgt).any fun b => b.comment_id == pid) =
      (tgt.any fun b => b.comment_id == pid) := by
  unfold applyCommentUpdate
  rw [List.any_map]
  congr 1
  funext t
  by_cases h : t.comment_id = a.comment_id <;> simp [Function.comp, h, updC]

theorem resolveC_of_absent {src : List CommentRow} {b : CommentRow}
    (h : ∀ x ∈ src, x.comment_id ≠ b.comment_id) : resolveC src b = b := by
  unfold resolveC
  rw [find?_eq_none_of_not_key h]

theorem resolveC_cons_of_ne {a b : CommentRow} {src : List CommentRow}
    (h : a.comment_id ≠ b.comment_id) : resolveC (a :: src) b = resolveC src b := by
  unfold resolveC
  rw [List.find?_cons_of_neg]
  simp [h]

theorem commMergeList_closed (src : List CommentRow) :
    ∀ tgt : List CommentRow, CommKeysOk src → CommKeysOk tgt →
      commMergeList tgt src = tgt.map (resolveC src) ++ newComments src tgt := by
  induction src with
  | nil =>
      intro tgt _ _
      have h1 : List.map (resolveC []) tgt = List.map id tgt :=
        List.map_congr_left fun b _ => rfl
      simp [commMergeList, newComments, h1]
  | cons a rest ih =>
      intro tgt hsrc htgt
      have hresta : ∀ x ∈ rest, x.comment_id ≠ a.comment_id :=
        fun x hx => (hsrc.head_not_in_tail x hx).symm
      cases hf : tgt.find? (fun t => t.comment_id == a.comment_id) with
      | none =>
          have hnota : ∀ t ∈ tgt, t.comment_id ≠ a.comment_id := by
            intro t ht
            have := (List.find?_eq_none.mp hf) t ht
            simpa using this
          have htgt' : CommKeysOk (tgt ++ [a]) :=
            htgt.append_singleton (fun y hy => hnota y hy)
          have hLHS : commMergeList tgt (a :: rest) = commMergeList (tgt ++ [a]) rest := by
            simp only [commMergeList, hf]
          rw [hLHS, ih (tgt ++ [a]) hsrc.of_cons htgt']
          have hmap : (tgt ++ [a]).map (resolveC rest) =
              tgt.map (resolveC (a :: rest)) ++ [a] := by
            rw [List.map_append]
            congr 1
            · exact List.map_congr_left fun b hb =>
                (resolveC_cons_of_ne (fun hk => hnota b hb hk.symm)).symm
            · simp [resolveC_of_absent hresta]
          have hnew : newComments rest (tgt ++ [a]) = newComments rest tgt := by
            unfold newComments
            apply List.filter_congr
            intro x hx
            have hax : a.comment_id ≠ x.comment_id := fun hk => hresta x hx hk.symm
            simp [List.any_append, hax]
          have hnew2 : newComments (a :: rest) tgt = a :: newComments rest tgt := by
            unfold newComments
            rw [List.filter_cons_of_pos]
            simp only [Bool.not_eq_true']
            rw [List.any_eq_false]
            intro t ht
            simp [hnota t ht]
          rw [hmap, hnew, hnew2, List.append_assoc]
          rfl
      | some e =>
          have he_mem : e ∈ tgt := List.mem_of_find?_eq_some hf
          have he_id : e.comment_id = a.comment_id := by
            simpa using List.find?_some hf
          have htany : (tgt.any fun b => b.comment_id == a.comment_id) = true :=
            List.any_eq_true.mpr ⟨e, he_mem, by simp [he_id]⟩
          have hnew2 : newComments (a :: rest) tgt = newComments rest tgt := by
            unfold newComments
            rw [List.filter_cons_of_neg]
            simp [htany]
          cases hra : a.last_updated with
          | some slu =>
              cases hre : e.last_updated with
              | some tlu =>
                  by_cases hlt : tlu < slu
                  · -- update branch
                    have hLHS : commMergeList tgt (a :: rest) =
                        commMergeList (applyCommentUpdate a tgt) rest := by
                      simp only [commMergeList, hf, hra, hre, if_pos hlt]
                    rw [hLHS, ih (applyCommentUpdate a tgt) hsrc.of_cons
                          (applyCommentUpdate_keysOk a htgt)]
                    have hmap : (applyCommentUpdate a tgt).map (resolveC rest) =
                        tgt.map (resolveC (a :: rest)) := by
                      unfold applyCommentUpdate
                      rw [List.map_map]
                      apply List.map_congr_left
                      intro t ht
                      by_cases hid : t.comment_id = a.comment_id
                      · have hte : t = e := htgt.eq_of_key_eq ht he_mem (hid.trans he_id.symm)
                        have hg : (fun t => if t.comment_id == a.comment_id then updC t a else t) t
                            = updC t a := by simp [hid]
                        have habs : ∀ x ∈ rest, x.comment_id ≠ (updC t a).comment_id := by
                          intro x hx
                          rw [updC_comment_id, hid]
                          exact hresta x hx
                        have h1 : (resolveC rest ∘ fun t =>
                            if t.comment_id == a.comment_id then updC t a else t) t
                            = updC t a := by
                          simp only [Function.comp, hg]
                          exact resolveC_of_absent habs
                        rw [h1]
                        unfold resolveC
                        rw [List.find?_cons_of_pos]
                        · subst hte
                          simp [hra, hre, hlt]
                        · simp [hid]
                      · have hg : (fun t => if t.comment_id == a.comment_id then updC t a else t) t
                            = t := by simp [hid]
                        simp only [Function.comp, hg]
                        exact (resolveC_cons_of_ne fun hk => hid hk.symm).symm
                    have hnew : newComments rest (applyCommentUpdate a tgt) = newComments rest tgt := by
                      unfold newComments
                      apply List.filter_congr
                      intro x _
                      rw [any_key_applyCommentUpdate]
                    rw [hmap, hnew, hnew2]
                  · -- both timestamps present, source not strictly newer: skip
                    have hLHS : commMergeList tgt (a :: rest) = commMergeList tgt rest := by
                      simp only [commMergeList, hf, hra, hre, if_neg hlt]
                    rw [hLHS, ih tgt hsrc.of_cons htgt, hnew2]
                    congr 1
                    apply List.map_congr_left
                    intro t ht
                    by_cases hid : t.comment_id = a.comment_id
                    · have hte : t = e := htgt.eq_of_key_eq ht he_mem (hid.trans he_id.symm)
                      have habs : ∀ x ∈ rest, x.comment_id ≠ t.comment_id := by
                        intro x hx; rw [hid]; exact hresta x hx
                      rw [resolveC_of_absent habs]
                      unfold resolveC
                      rw [List.find?_cons_of_pos]
                      · subst hte
                        simp [hra, hre, hlt]
                      · simp [hid]
                    · exact (resolveC_cons_of_ne fun hk => hid hk.symm).symm
              | none =>
                  have hLHS : commMergeList tgt (a :: rest) = commMergeList tgt rest := by
                    simp only [commMergeList, hf, hra, hre]
                  rw [hLHS, ih tgt hsrc.of_cons htgt, hnew2]
                  congr 1
                  apply List.map_congr_left
                  intro t ht
                  by_cases hid : t.comment_id = a.comment_id
                  · have hte : t = e := htgt.eq_of_key_eq ht he_mem (hid.trans he_id.symm)
                    have habs : ∀ x ∈ rest, x.comment_id ≠ t.comment_id := by
                      intro x hx; rw [hid]; exact hresta x hx
                    rw [resolveC_of_absent habs]
                    unfold resolveC
                    rw [List.find?_cons_of_pos]
                    · subst hte
                      simp [hra, hre]
                    · simp [hid]
                  · exact (resolveC_cons_of_ne fun hk => hid hk.symm).symm
          | none =>
              have hLHS : commMergeList tgt (a :: rest) = commMergeList tgt rest := by
                simp only [commMergeList, hf, hra]
              rw [hLHS, ih tgt hsrc.of_cons htgt, hnew2]
              congr 1
              apply List.map_congr_left
              intro t ht
              by_cases hid : t.comment_id = a.comment_id
              · have hte : t = e := htgt.eq_of_key_eq ht he_mem (hid.trans he_id.symm)
                have habs : ∀ x ∈ rest, x.comment_id ≠ t.comment_id := by
                  intro x hx; rw [hid]; exact hresta x hx
                rw [resolveC_of_absent habs]
                unfold resolveC
                rw [List.find?_cons_of_pos]
                · simp [hra]
                · simp [hid]
              · exact (resolveC_cons_of_ne fun hk => hid hk.symm).symm

/-! ## Idempotence machinery for the posts / comments passes -/

theorem resolveP_key (src : List PostRow) (b : PostRow) :
    (resolveP src b).post_id = b.post_id := by
  unfold resolveP
  cases hf : src.find? (fun a => a.post_id == b.post_id) with
  | none => rfl
  | some a =>
      cases ha : a.last_updated with
      | none => simp [ha]
      | some slu =>
          cases hb : b.last_updated with
          | none => simp [ha, hb]
          | some tlu =>
              simp only [ha, hb]
              split <;> simp [updP]

theorem postMergeList_keysOk (src tgt : List PostRow)
    (hsrc : PostKeysOk src) (htgt : PostKeysOk tgt) :
    PostKeysOk (postMergeList tgt src) := by
  rw [postMergeList_closed src tgt hsrc htgt]
  refine List.pairwise_append.mpr ⟨?_, ?_, ?_⟩
  · exact UniqKeys.map_of_key_eq _ (resolveP_key src) htgt
  · exact hsrc.of_sublist (List.filter_sublist src)
  · intro y hy b hb
    rcases List.mem_map.mp hy with ⟨c, hc, rfl⟩
    have hbp := List.of_mem_filter hb
    rw [resolveP_key]
    intro hk
    have : (tgt.any fun t => t.post_id == b.post_id) = true :=
      List.any_eq_true.mpr ⟨c, hc, by simp [hk]⟩
    simp [this] at hbp

theorem postMergeList_skips_all (src tgt : List PostRow)
    (hsrc : PostKeysOk src) (htgt : PostKeysOk tgt) :
    ∀ r ∈ src, postSkips (postMergeList tgt src) r := by
  intro r hr
  have hkeys := postMergeList_keysOk src tgt hsrc htgt
  rw [postMergeList_closed src tgt hsrc htgt] at hkeys ⊢
  unfold postSkips
  cases hex : tgt.any (fun b => b.post_id == r.post_id) with
  | true =>
      rcases List.any_eq_true.mp hex with ⟨b, hb, hbid⟩
      have hbid' : b.post_id = r.post_id := by simpa using hbid
      have hy : resolveP src b ∈ tgt.map (resolveP src) ++ newPosts src tgt :=
        List.mem_append_left _ (List.mem_map.mpr ⟨b, hb, rfl⟩)
      have hyk : (resolveP src b).post_id = r.post_id := by
        rw [resolveP_key]; exact hbid'
      rw [find?_eq_some_of_uniq hkeys hy hyk]
      have hfr : src.find? (fun a => a.post_id == b.post_id) = some r :=
        find?_eq_some_of_uniq hsrc hr hbid'.symm
      unfold resolveP
      rw [hfr]
      cases hra : r.last_updated with
      | none => simp
      | some slu =>
          cases hbl : b.last_updated with
          | none => simp [hra, hbl]
          | some tlu =>
              by_cases hlt : tlu < slu
              · simp [hra, hbl, hlt, updP]
              · simp only [hra, hbl, if_neg hlt]
                simp [hlt]
  | false =>
      have hrn : r ∈ newPosts src tgt := by
        unfold newPosts
        exact List.mem_filter.mpr ⟨hr, by simp [hex]⟩
      have hy : r ∈ tgt.map (resolveP src) ++ newPosts src tgt :=
        List.mem_append_right _ hrn
      rw [find?_eq_some_of_uniq hkeys hy rfl]
      cases hra : r.last_updated with
      | none => simp
      | some slu => simp [hra]

theorem foldl_postStep_all_skip (src : List PostRow) :
    ∀ t a u s, (∀ r ∈ src, postSkips t r) →
      List.foldl postStep ⟨t, a, u, s⟩ src = ⟨t, a, u, s + src.length⟩ := by
  induction src with
  | nil => intro t a u s _; rfl
  | cons r rs ih =>
      intro t a u s h
      have hr := h r (List.mem_cons_self r rs)
      have hrest : ∀ x ∈ rs, postSkips t x :=
        fun x hx => h x (List.mem_cons_of_mem r hx)
      cases hf : t.find? (fun x => x.post_id == r.post_id) with
      | none =>
          unfold postSkips at hr
          rw [hf] at hr
          exact hr.elim
      | some e =>
          have hr' : (match r.last_updated, e.last_updated with
              | some slu, some tlu => ¬ tlu < slu
              | _, _ => True) := by
            unfold postSkips at hr
            rw [hf] at hr
            exact hr
          simp only [List.foldl_cons, postStep, hf]
          revert hr'
          cases hra : r.last_updated with
          | none =>
              intro _
              rw [ih t a u (s + 1) hrest]
              simp only [PostAcc.mk.injEq, List.length_cons, true_and]
              omega
          | some slu =>
              cases hre : e.last_updated with
              | none =>
                  intro _
                  rw [ih t a u (s + 1) hrest]
                  simp only [PostAcc.mk.injEq, List.length_cons, true_and]
                  omega
              | some tlu =>
                  intro hr'
                  have hnlt : ¬ tlu < slu := hr'
                  simp only [if_neg hnlt]
                  rw [ih t a u (s + 1) hrest]
                  simp only [PostAcc.mk.injEq, List.length_cons, true_and]
                  omega

/-! ## Idempotence machinery, comments side -/

theorem resolveC_key (src : List CommentRow) (b : CommentRow) :
    (resolveC src b).comment_id = b.comment_id := by
  unfold resolveC
  cases hf : src.find? (fun a => a.comment_id == b.comment_id) with
  | none => rfl
  | some a =>
      cases ha : a.last_updated with
      | none => simp [ha]
      | some slu =>
          cases hb : b.last_updated with
          | none => simp [ha, hb]
          | some tlu =>
              simp only [ha, hb]
              split <;> simp [updC]

theorem commMergeList_keysOk (src tgt : List CommentRow)
    (hsrc : CommKeysOk src) (htgt : CommKeysOk tgt) :
    CommKeysOk (commMergeList tgt src) := by
  rw [commMergeList_closed src tgt hsrc htgt]
  refine List.pairwise_append.mpr ⟨?_, ?_, ?_⟩
  · exact UniqKeys.map_of_key_eq _ (resolveC_key src) htgt
  · exact hsrc.of_sublist (List.filter_sublist src)
  · intro y hy b hb
    rcases List.mem_map.mp hy with ⟨c, hc, rfl⟩
    have hbp := List.of_mem_filter hb
    rw [resolveC_key]
    intro hk
    have : (tgt.any fun t => t.comment_id == b.comment_id) = true :=
      List.any_eq_true.mpr ⟨c, hc, by simp [hk]⟩
    simp [this] at hbp

theorem commMergeList_skips_all (src tgt : List CommentRow)
    (hsrc : CommKeysOk src) (htgt : CommKeysOk tgt) :
    ∀ r ∈ src, commSkips (commMergeList tgt src) r := by
  intro r hr
  have hkeys := commMergeList_keysOk src tgt hsrc htgt
  rw [commMergeList_closed src tgt hsrc htgt] at hkeys ⊢
  unfold commSkips
  cases hex : tgt.any (fun b => b.comment_id == r.comment_id) with
  | true =>
      rcases List.any_eq_true.mp hex with ⟨b, hb, hbid⟩
      have hbid' : b.comment_id = r.comment_id := by simpa using hbid
      have hy : resolveC src b ∈ tgt.map (resolveC src) ++ newComments src tgt :=
        List.mem_append_left _ (List.mem_map.mpr ⟨b, hb, rfl⟩)
      have hyk : (resolveC src b).comment_id = r.comment_id := by
        rw [resolveC_key]; exact hbid'
      rw [find?_eq_some_of_uniq hkeys hy hyk]
      have hfr : src.find? (fun a => a.comment_id == b.comment_id) = some r :=
        find?_eq_some_of_uniq hsrc hr hbid'.symm
      unfold resolveC
      rw [hfr]
      cases hra : r.last_updated with
      | none => simp
      | some slu =>
          cases hbl : b.last_updated with
          | none => simp [hra, hbl]
          | some tlu =>
              by_cases hlt : tlu < slu
              · simp [hra, hbl, hlt, updC]
              · simp only [hra, hbl, if_neg hlt]
                simp [hlt]
  | false =>
      have hrn : r ∈ newComments src tgt := by
        unfold newComments
        exact List.mem_filter.mpr ⟨hr, by simp [hex]⟩
      have hy : r ∈ tgt.map (resolveC src) ++ newComments src tgt :=
        List.mem_append_right _ hrn
      rw [find?_eq_some_of_uniq hkeys hy rfl]
      cases hra : r.last_updated with
      | none => simp
      | some slu => simp [hra]

theorem foldl_commStep_all_skip (src : List CommentRow) :
    ∀ t a u s, (∀ r ∈ src, commSkips t r) →
      List.foldl commStep ⟨t, a, u, s⟩ src = ⟨t, a, u, s + src.length⟩ := by
  induction src with
  | nil => intro t a u s _; rfl
  | cons r rs ih =>
      intro t a u s h
      have hr := h r (List.mem_cons_self r rs)
      have hrest : ∀ x ∈ rs, commSkips t x :=
        fun x hx => h x (List.mem_cons_of_mem r hx)
      cases hf : t.find? (fun x => x.comment_id == r.comment_id) with
      | none =>
          unfold commSkips at hr
          rw [hf] at hr
          exact hr.elim
      | some e =>
          have hr' : (match r.last_updated, e.last_updated with
              | some slu, some tlu => ¬ tlu < slu
              | _, _ => True) := by
            unfold commSkips at hr
            rw [hf] at hr
            exact hr
          simp only [List.foldl_cons, commStep, hf]
          revert hr'
          cases hra : r.last_updated with
          | none =>
              intro _
              rw [ih t a u (s + 1) hrest]
              simp only [CommAcc.mk.injEq, List.length_cons, true_and]
              omega
          | some slu =>
              cases hre : e.last_updated with
              | none =>
                  intro _
                  rw [ih t a u (s + 1) hrest]
                  simp only [CommAcc.mk.injEq, List.length_cons, true_and]
                  omega
              | some tlu =>
                  intro hr'
                  have hnlt : ¬ tlu < slu := hr'
                  simp only [if_neg hnlt]
                  rw [ih t a u (s + 1) hrest]
                  simp only [CommAcc.mk.injEq, List.length_cons, true_and]
                  omega

/-- C1: Merge idempotence.  Re-running `merge_databases` with the same
source and the already-merged target changes nothing: for every table the
second run inserts zero rows and performs zero updates (each source row is
skipped), and the target database after the second run is identical to the
target after the first.  The `UNIQUE` column constraints of the real
schema are the `PostKeysOk` / `CommKeysOk` hypotheses. -/
theorem c1_merge_idempotent (src tgt : Database)
    (hsp : PostKeysOk src.posts) (htp : PostKeysOk tgt.posts)
    (hsc : CommKeysOk src.comments) (htc : CommKeysOk tgt.comments) :
    mergeOk src (mergeOk src tgt).1 =
      ((mergeOk src tgt).1,
       ⟨0, src.account_snapshots.length, 0, 0, src.posts.length,
        0, 0, src.comments.length, 0, src.score_history.length⟩) := by
  have hmS : ∀ r ∈ src.account_snapshots,
      ((snapMergeList tgt.account_snapshots src.account_snapshots).any (snapMatch r)) = true := by
    intro r hrr
    rcases snapMergeList_complete src.account_snapshots tgt.account_snapshots r hrr with
      ⟨y, hy, hm⟩
    exact List.any_eq_true.mpr ⟨y, hy, hm⟩
  have hmH : ∀ r ∈ src.score_history,
      ((histMergeList tgt.score_history src.score_history).any (histMatch r)) = true := by
    intro r hrr
    rcases histMergeList_complete src.score_history tgt.score_history r hrr with
      ⟨y, hy, hm⟩
    exact List.any_eq_true.mpr ⟨y, hy, hm⟩
  have hmP : ∀ r ∈ src.posts, postSkips (postMergeList tgt.posts src.posts) r :=
    postMergeList_skips_all src.posts tgt.posts hsp htp
  have hmC : ∀ r ∈ src.comments, commSkips (commMergeList tgt.comments src.comments) r :=
    commMergeList_skips_all src.comments tgt.comments hsc htc
  have e1 : mergeSnaps src.account_snapshots
        (snapMergeList tgt.account_snapshots src.account_snapshots) =
      ⟨snapMergeList tgt.account_snapshots src.account_snapshots, 0,
       0 + src.account_snapshots.length⟩ :=
    foldl_snapStep_all_match _ _ 0 0 hmS
  have e2 : mergePosts src.posts (postMergeList tgt.posts src.posts) =
      ⟨postMergeList tgt.posts src.posts, 0, 0, 0 + src.posts.length⟩ :=
    foldl_postStep_all_skip _ _ 0 0 0 hmP
  have e3 : mergeComments src.comments (commMergeList tgt.comments src.comments) =
      ⟨commMergeList tgt.comments src.comments, 0, 0, 0 + src.comments.length⟩ :=
    foldl_commStep_all_skip _ _ 0 0 0 hmC
  have e4 : mergeHistory src.score_history
        (histMergeList tgt.score_history src.score_history) =
      ⟨histMergeList tgt.score_history src.score_history, 0,
       0 + src.score_history.length⟩ :=
    foldl_histStep_all_match _ _ 0 0 hmH
  simp only [mergeOk, mergeSnaps_tgt, mergePosts_tgt, mergeComments_tgt, mergeHistory_tgt,
    e1, e2, e3, e4, Nat.zero_add]

/-- Witness for C1 at a concrete source/target pair. -/
theorem c1_merge_idempotent_witness :
    PostKeysOk exSrc.posts ∧ PostKeysOk exTgt.posts ∧
    CommKeysOk exSrc.comments ∧ CommKeysOk exTgt.comments ∧
    mergeOk exSrc (mergeOk exSrc exTgt).1 =
      ((mergeOk exSrc exTgt).1, ⟨0, 1, 0, 0, 1, 0, 0, 1, 0, 1⟩) :=
  ⟨by simp [PostKeysOk, UniqKeys, exSrc], by simp [PostKeysOk, UniqKeys, exTgt],
   by simp [CommKeysOk, UniqKeys, exSrc], by simp [CommKeysOk, UniqKeys, exTgt],
   c1_merge_idempotent exSrc exTgt
     (by simp [PostKeysOk, UniqKeys, exSrc]) (by simp [PostKeysOk, UniqKeys, exTgt])
     (by simp [CommKeysOk, UniqKeys, exSrc]) (by simp [CommKeysOk, UniqKeys, exTgt])⟩

/-- C9: If either input dataset does not exist, `merge_databases` fails
(the `Path.exists` guards report the error and return before opening any
connection), and the on-disk target dataset is untouched. -/
theorem c9_missing_dataset_aborts (src tgt : Option Database)
    (h : src = none ∨ tgt = none) :
    (∃ e, mergeDatabases src tgt = .error e) ∧ mergeFinalTarget src tgt = tgt := by
  rcases h with rfl | rfl
  · exact ⟨⟨.sourceNotFound, rfl⟩, rfl⟩
  · cases src with
    | none => exact ⟨⟨.sourceNotFound, rfl⟩, rfl⟩
    | some s => exact ⟨⟨.targetNotFound, rfl⟩, rfl⟩

/-- Witness for C9: a missing source aborts the merge and leaves the
target as it was. -/
theorem c9_missing_dataset_aborts_witness :
    (∃ e, mergeDatabases none (some exTgt) = .error e) ∧
    mergeFinalTarget none (some exTgt) = some exTgt :=
  c9_missing_dataset_aborts none (some exTgt) (Or.inl rfl)

/-- C5: `merge_databases` never updates an existing `account_snapshots` or
`score_history` row — both passes only ever append source rows to the
target table — and a single source row is inserted exactly when no target
row shares its identity tuple, else skipped (counted accordingly). -/
theorem c5_snapshots_history_insert_only (src tgt : Database)
    (r : SnapshotRow) (h : ScoreRow) :
    (∃ rest, (mergeOk src tgt).1.account_snapshots = tgt.account_snapshots ++ rest ∧
       ∀ x ∈ rest, x ∈ src.account_snapshots) ∧
    (∃ rest, (mergeOk src tgt).1.score_history = tgt.score_history ++ rest ∧
       ∀ x ∈ rest, x ∈ src.score_history) ∧
    ((mergeOk ⟨[r], [], [], []⟩ tgt).1.account_snapshots =
       if tgt.account_snapshots.any (snapMatch r) then tgt.account_snapshots
       else tgt.account_snapshots ++ [r]) ∧
    ((mergeOk ⟨[r], [], [], []⟩ tgt).2.snapshotsAdded =
       if tgt.account_snapshots.any (snapMatch r) then 0 else 1) ∧
    ((mergeOk ⟨[r], [], [], []⟩ tgt).2.snapshotsSkipped =
       if tgt.account_snapshots.any (snapMatch r) then 1 else 0) ∧
    ((mergeOk ⟨[], [], [], [h]⟩ tgt).1.score_history =
       if tgt.score_history.any (histMatch h) then tgt.score_history
       else tgt.score_history ++ [h]) ∧
    ((mergeOk ⟨[], [], [], [h]⟩ tgt).2.historyAdded =
       if tgt.score_history.any (histMatch h) then 0 else 1) ∧
    ((mergeOk ⟨[], [], [], [h]⟩ tgt).2.historySkipped =
       if tgt.score_history.any (histMatch h) then 1 else 0) := by
  refine ⟨?_, ?_, ?_, ?_, ?_, ?_, ?_, ?_⟩
  · simpa only [mergeOk, mergeSnaps_tgt] using
      snapMergeList_append_form src.account_snapshots tgt.account_snapshots
  · simpa only [mergeOk, mergeHistory_tgt] using
      histMergeList_append_form src.score_history tgt.score_history
  all_goals
    by_cases hc : tgt.account_snapshots.any (snapMatch r) = true <;>
    by_cases hh : tgt.score_history.any (histMatch h) = true <;>
      simp [mergeOk, mergeSnaps, mergeHistory, snapStep, histStep, hc, hh]

/-- Witness for C5 at concrete datasets and rows. -/
theorem c5_snapshots_history_insert_only_witness :
    (∃ rest, (mergeOk exSrc exTgt).1.account_snapshots = exTgt.account_snapshots ++ rest ∧
       ∀ x ∈ rest, x ∈ exSrc.account_snapshots) ∧
    (∃ rest, (mergeOk exSrc exTgt).1.score_history = exTgt.score_history ++ rest ∧
       ∀ x ∈ rest, x ∈ exSrc.score_history) ∧
    ((mergeOk ⟨[{ username := "alice", timestamp := 1 }], [], [], []⟩ exTgt).1.account_snapshots =
       if exTgt.account_snapshots.any (snapMatch { username := "alice", timestamp := 1 }) then
         exTgt.account_snapshots
       else exTgt.account_snapshots ++ [{ username := "alice", timestamp := 1 }]) ∧
    ((mergeOk ⟨[{ username := "alice", timestamp := 1 }], [], [], []⟩ exTgt).2.snapshotsAdded =
       if exTgt.account_snapshots.any (snapMatch { username := "alice", timestamp := 1 }) then 0 else 1) ∧
    ((mergeOk ⟨[{ username := "alice", timestamp := 1 }], [], [], []⟩ exTgt).2.snapshotsSkipped =
       if exTgt.account_snapshots.any (snapMatch { username := "alice", timestamp := 1 }) then 1 else 0) ∧
    ((mergeOk ⟨[], [], [], [{ item_type := "post", item_id := "p1", timestamp := 9 }]⟩ exTgt).1.score_history =
       if exTgt.score_history.any (histMatch { item_type := "post", item_id := "p1", timestamp := 9 }) then
         exTgt.score_history
       else exTgt.score_history ++ [{ item_type := "post", item_id := "p1", timestamp := 9 }]) ∧
    ((mergeOk ⟨[], [], [], [{ item_type := "post", item_id := "p1", timestamp := 9 }]⟩ exTgt).2.historyAdded =
       if exTgt.score_history.any (histMatch { item_type := "post", item_id := "p1", timestamp := 9 }) then 0 else 1) ∧
    ((mergeOk ⟨[], [], [], [{ item_type := "post", item_id := "p1", timestamp := 9 }]⟩ exTgt).2.historySkipped =
       if exTgt.score_history.any (histMatch { item_type := "post", item_id := "p1", timestamp := 9 }) then 1 else 0) :=
  c5_snapshots_history_insert_only exSrc exTgt
    { username := "alice", timestamp := 1 }
    { item_type := "post", item_id := "p1", timestamp := 9 }

/-- C3: For a content item present in both source and target,
`merge_databases` updates the target's mutable fields from the source
exactly when both `last_updated` values are present (truthy) and the
source's is strictly greater; otherwise the target table is left
unchanged and the row is counted as skipped. -/
theorem c3_update_iff_strictly_newer (tgt : Database) (r e : PostRow)
    (rc ec : CommentRow)
    (htp : PostKeysOk tgt.posts) (he : e ∈ tgt.posts) (hid : e.post_id = r.post_id)
    (htc : CommKeysOk tgt.comments) (hec : ec ∈ tgt.comments)
    (hidc : ec.comment_id = rc.comment_id) :
    ((mergeOk ⟨[], [r], [], []⟩ tgt).1.posts =
        match r.last_updated, e.last_updated with
        | some slu, some tlu => if tlu < slu then applyPostUpdate r tgt.posts else tgt.posts
        | _, _ => tgt.posts) ∧
    ((mergeOk ⟨[], [r], [], []⟩ tgt).2.postsUpdated =
        match r.last_updated, e.last_updated with
        | some slu, some tlu => if tlu < slu then 1 else 0
        | _, _ => 0) ∧
    ((mergeOk ⟨[], [r], [], []⟩ tgt).2.postsSkipped =
        match r.last_updated, e.last_updated with
        | some slu, some tlu => if tlu < slu then 0 else 1
        | _, _ => 1) ∧
    ((mergeOk ⟨[], [r], [], []⟩ tgt).2.postsAdded = 0) ∧
    ((mergeOk ⟨[], [], [rc], []⟩ tgt).1.comments =
        match rc.last_updated, ec.last_updated with
        | some slu, some tlu => if tlu < slu then applyCommentUpdate rc tgt.comments else tgt.comments
        | _, _ => tgt.comments) ∧
    ((mergeOk ⟨[], [], [rc], []⟩ tgt).2.commentsUpdated =
        match rc.last_updated, ec.last_updated with
        | some slu, some tlu => if tlu < slu then 1 else 0
        | _, _ => 0) ∧
    ((mergeOk ⟨[], [], [rc], []⟩ tgt).2.commentsSkipped =
        match rc.last_updated, ec.last_updated with
        | some slu, some tlu => if tlu < slu then 0 else 1
        | _, _ => 1) ∧
    ((mergeOk ⟨[], [], [rc], []⟩ tgt).2.commentsAdded = 0) := by
  have hfp : tgt.posts.find? (fun t => t.post_id == r.post_id) = some e :=
    find?_eq_some_of_uniq htp he hid
  have hfc : tgt.comments.find? (fun t => t.comment_id == rc.comment_id) = some ec :=
    find?_eq_some_of_uniq htc hec hidc
  refine ⟨?_, ?_, ?_, ?_, ?_, ?_, ?_, ?_⟩ <;>
  · cases hra : r.last_updated <;> cases hre : e.last_updated <;>
    cases hrc : rc.last_updated <;> cases hrec : ec.last_updated <;>
      simp [mergeOk, mergePosts, mergeComments, postStep, commStep, hfp, hfc,
        hra, hre, hrc, hrec, mergeSnaps, mergeHistory] <;>
      split <;> simp

/-- Witness for C3 at concrete rows (source strictly newer on both
kinds). -/
theorem c3_update_iff_strictly_newer_witness :
    ((mergeOk ⟨[], [exNewPost], [], []⟩ exTgt).1.posts =
        match exNewPost.last_updated, exTgtPost.last_updated with
        | some slu, some tlu =>
            if tlu < slu then applyPostUpdate exNewPost exTgt.posts else exTgt.posts
        | _, _ => exTgt.posts) ∧
    ((mergeOk ⟨[], [exNewPost], [], []⟩ exTgt).2.postsUpdated =
        match exNewPost.last_updated, exTgtPost.last_updated with
        | some slu, some tlu => if tlu < slu then 1 else 0
        | _, _ => 0) ∧
    ((mergeOk ⟨[], [exNewPost], [], []⟩ exTgt).2.postsSkipped =
        match exNewPost.last_updated, exTgtPost.last_updated with
        | some slu, some tlu => if tlu < slu then 0 else 1
        | _, _ => 1) ∧
    ((mergeOk ⟨[], [exNewPost], [], []⟩ exTgt).2.postsAdded = 0) ∧
    ((mergeOk ⟨[], [], [exNewComment], []⟩ exTgt).1.comments =
        match exNewComment.last_updated, exTgtComment.last_updated with
        | some slu, some tlu =>
            if tlu < slu then applyCommentUpdate exNewComment exTgt.comments else exTgt.comments
        | _, _ => exTgt.comments) ∧
    ((mergeOk ⟨[], [], [exNewComment], []⟩ exTgt).2.commentsUpdated =
        match exNewComment.last_updated, exTgtComment.last_updated with
        | some slu, some tlu => if tlu < slu then 1 else 0
        | _, _ => 0) ∧
    ((mergeOk ⟨[], [], [exNewComment], []⟩ exTgt).2.commentsSkipped =
        match exNewComment.last_updated, exTgtComment.last_updated with
        | some slu, some tlu => if tlu < slu then 0 else 1
        | _, _ => 1) ∧
    ((mergeOk ⟨[], [], [exNewComment], []⟩ exTgt).2.commentsAdded = 0) :=
  c3_update_iff_strictly_newer exTgt exNewPost exTgtPost exNewComment exTgtComment
    (by simp [PostKeysOk, UniqKeys, exTgt]) (by decide) (by decide)
    (by simp [CommKeysOk, UniqKeys, exTgt]) (by decide) (by decide)

/-- C2: Upserting an already-present post/comment always rewrites the
row's mutable fields — `score` set to the observed value and
`last_updated` to the ingestion time — and appends exactly one
`score_history` entry carrying the new score when the observed score
differs from the stored one, and none when it is unchanged. -/
theorem c2_history_iff_score_changed (u : String)
    (dl : String → String → Option String) (now : Nat) (db : Database)
    (p : PostPayload) (pid : String) (e : PostRow)
    (hnd : PostKeysOk db.posts) (he : e ∈ db.posts) (hid : e.post_id = pid)
    (hp : p.id = some pid)
    (c : CommentPayload) (cid : String) (ec : CommentRow)
    (hndc : CommKeysOk db.comments) (hec : ec ∈ db.comments)
    (hidc : ec.comment_id = cid) (hc : c.id = some cid) :
    savePostItem u dl now db p = .ok
      { db with
        posts := db.posts.map fun t =>
          if t.post_id == pid then
            { t with score := some (p.score.getD 0), upvote_ratio := p.upvote_ratio,
                     num_comments := p.num_comments, last_updated := some now }
          else t,
        score_history := db.score_history ++
          (if e.score = some (p.score.getD 0) then []
           else [⟨"post", pid, some (p.score.getD 0), now⟩]) } ∧
    saveCommentItem u now db c = .ok
      { db with
        comments := db.comments.map fun t =>
          if t.comment_id == cid then
            { t with score := some (c.score.getD 0), last_updated := some now }
          else t,
        score_history := db.score_history ++
          (if ec.score = some (c.score.getD 0) then []
           else [⟨"comment", cid, some (c.score.getD 0), now⟩]) } := by
  have hfp : db.posts.find? (fun t => t.post_id == pid) = some e :=
    find?_eq_some_of_uniq hnd he hid
  have hfc : db.comments.find? (fun t => t.comment_id == cid) = some ec :=
    find?_eq_some_of_uniq hndc hec hidc
  constructor
  · by_cases hs : e.score = some (p.score.getD 0) <;>
      simp [savePostItem, hp, hfp, hs]
  · by_cases hs : ec.score = some (c.score.getD 0) <;>
      simp [saveCommentItem, hc, hfc, hs]

/-- Witness for C2: unchanged post score appends no history; changed
comment score appends one entry. -/
theorem c2_history_iff_score_changed_witness :
    savePostItem "alice" (fun _ _ => none) 9 exTgt { id := some "p1", score := some 6 } = .ok
      { exTgt with
        posts := exTgt.posts.map fun t =>
          if t.post_id == "p1" then
            { t with score := some ((some (6 : Int)).getD 0), upvote_ratio := none,
                     num_comments := none, last_updated := some 9 }
          else t,
        score_history := exTgt.score_history ++
          (if exTgtPost.score = some ((some (6 : Int)).getD 0) then []
           else [⟨"post", "p1", some ((some (6 : Int)).getD 0), 9⟩]) } ∧
    saveCommentItem "alice" 9 exTgt { id := some "c2", score := some 2 } = .ok
      { exTgt with
        comments := exTgt.comments.map fun t =>
          if t.comment_id == "c2" then
            { t with score := some ((some (2 : Int)).getD 0), last_updated := some 9 }
          else t,
        score_history := exTgt.score_history ++
          (if exTgtComment.score = some ((some (2 : Int)).getD 0) then []
           else [⟨"comment", "c2", some ((some (2 : Int)).getD 0), 9⟩]) } :=
  c2_history_iff_score_changed "alice" (fun _ _ => none) 9 exTgt
    { id := some "p1", score := some 6 } "p1" exTgtPost
    (by simp [PostKeysOk, UniqKeys, exTgt]) (by decide) (by decide) rfl
    { id := some "c2", score := some 2 } "c2" exTgtComment
    (by simp [CommKeysOk, UniqKeys, exTgt]) (by decide) (by decide) rfl

/-- C4: Upserting a previously unseen id inserts a new row whose
`first_seen` and `last_updated` both equal the observation time (both
filled by the same statement's `CURRENT_TIMESTAMP` defaults), and appends
exactly one initial `score_history` entry carrying the initial score. -/
theorem c4_first_upsert_baseline (u : String)
    (dl : String → String → Option String) (now : Nat) (db : Database)
    (p : PostPayload) (pid : String) (sc : Int)
    (hp : p.id = some pid) (habs : ∀ t ∈ db.posts, t.post_id ≠ pid)
    (hsc : p.score = some sc)
    (c : CommentPayload) (cid : String) (scc : Int)
    (hc : c.id = some cid) (habsc : ∀ t ∈ db.comments, t.comment_id ≠ cid)
    (hscc : c.score = some scc) :
    savePostItem u dl now db p = .ok
      { db with
        posts := db.posts ++
          [{ post_id := pid, username := u, subreddit := p.subreddit,
             title := p.title, selftext := p.selftext, url := some (p.url.getD ""),
             local_image_path := dl (p.url.getD "") pid, score := some sc,
             upvote_ratio := p.upvote_ratio, num_comments := p.num_comments,
             created_utc := some (p.created_utc.getD 0),
             first_seen := some now, last_updated := some now,
             is_self := p.is_self, over_18 := p.over_18, permalink := p.permalink }],
        score_history := db.score_history ++ [⟨"post", pid, some sc, now⟩] } ∧
    saveCommentItem u now db c = .ok
      { db with
        comments := db.comments ++
          [{ comment_id := cid, username := u, subreddit := c.subreddit,
             body := c.body, score := some scc,
             created_utc := some (c.created_utc.getD 0),
             first_seen := some now, last_updated := some now,
             parent_id := c.parent_id, link_id := c.link_id,
             permalink := c.permalink }],
        score_history := db.score_history ++ [⟨"comment", cid, some scc, now⟩] } := by
  have hfp : db.posts.find? (fun t => t.post_id == pid) = none :=
    find?_eq_none_of_not_key habs
  have hfc : db.comments.find? (fun t => t.comment_id == cid) = none :=
    find?_eq_none_of_not_key habsc
  constructor
  · simp [savePostItem, hp, hfp, hsc]
  · simp [saveCommentItem, hc, hfc, hscc]

/-- Witness for C4 on an empty database. -/
theorem c4_first_upsert_baseline_witness :
    savePostItem "alice" (fun _ _ => none) 3 ⟨[], [], [], []⟩
        { id := some "pn", score := some 11 } = .ok
      { (⟨[], [], [], []⟩ : Database) with
        posts := [] ++
          [{ post_id := "pn", username := "alice", subreddit := none,
             title := none, selftext := none, url := some ((none : Option String).getD ""),
             local_image_path := (fun _ _ => (none : Option String)) ((none : Option String).getD "") "pn",
             score := some 11, upvote_ratio := none, num_comments := none,
             created_utc := some ((none : Option Nat).getD 0),
             first_seen := some 3, last_updated := some 3,
             is_self := none, over_18 := none, permalink := none }],
        score_history := [] ++ [⟨"post", "pn", some 11, 3⟩] } ∧
    saveCommentItem "alice" 3 ⟨[], [], [], []⟩
        { id := some "cn", score := some 12 } = .ok
      { (⟨[], [], [], []⟩ : Database) with
        comments := [] ++
          [{ comment_id := "cn", username := "alice", subreddit := none,
             body := none, score := some 12,
             created_utc := some ((none : Option Nat).getD 0),
             first_seen := some 3, last_updated := some 3,
             parent_id := none, link_id := none, permalink := none }],
        score_history := [] ++ [⟨"comment", "cn", some 12, 3⟩] } :=
  c4_first_upsert_baseline "alice" (fun _ _ => none) 3 ⟨[], [], [], []⟩
    { id := some "pn", score := some 11 } "pn" 11 rfl (by simp) rfl
    { id := some "cn", score := some 12 } "cn" 12 rfl (by simp) rfl

/-- C7 counterexample: an upsert whose id is the empty string is NOT
rejected — `save_posts` performs no identity validation, so the record is
accepted, stored under the empty-string key, and given a baseline history
entry. -/
theorem c7_counterexample_empty_id_stored :
    savePosts "u" (fun _ _ => none) 5 ⟨[], [], [], []⟩ [{ id := some "", score := some 1 }] =
      ⟨[],
       [{ post_id := "", username := "u", url := some "", score := some 1,
          created_utc := some 0, first_seen := some 5, last_updated := some 5 }],
       [],
       [⟨"post", "", some 1, 5⟩]⟩ := by
  rfl

/-- C7 amended: only a missing/null id is rejected, and by the `NOT NULL`
column constraint (an uncaught `sqlite3.IntegrityError`), not by an
explicit `ValidationError`; an empty-string id passes the constraint and
is stored under the empty-string key. -/
theorem c7_null_id_rejected_empty_id_stored (u : String)
    (dl : String → String → Option String) (now : Nat) (db : Database)
    (p : PostPayload) (c : CommentPayload) (q : PostPayload)
    (hp : p.id = none) (hc : c.id = none) (hq : q.id = some "")
    (hnew : ∀ t ∈ db.posts, t.post_id ≠ "") :
    savePostItem u dl now db p = .error .notNullViolation ∧
    saveCommentItem u now db c = .error .notNullViolation ∧
    ∃ row : PostRow, row.post_id = "" ∧
      savePostItem u dl now db q =
        .ok { db with posts := db.posts ++ [row],
                      score_history :=
                        db.score_history ++ [⟨"post", "", some (q.score.getD 0), now⟩] } := by
  refine ⟨by simp [savePostItem, hp], by simp [saveCommentItem, hc], ?_⟩
  have hf : db.posts.find? (fun t => t.post_id == ("" : String)) = none :=
    find?_eq_none_of_not_key hnew
  refine ⟨{ post_id := "", username := u, subreddit := q.subreddit,
            title := q.title, selftext := q.selftext, url := some (q.url.getD ""),
            local_image_path := dl (q.url.getD "") "", score := q.score,
            upvote_ratio := q.upvote_ratio, num_comments := q.num_comments,
            created_utc := some (q.created_utc.getD 0),
            first_seen := some now, last_updated := some now,
            is_self := q.is_self, over_18 := q.over_18, permalink := q.permalink },
         rfl, ?_⟩
  simp [savePostItem, hq, hf]

/-- Witness for the amended C7. -/
theorem c7_null_id_rejected_empty_id_stored_witness :
    savePostItem "u" (fun _ _ => none) 4 ⟨[], [], [], []⟩ { id := none } =
        .error .notNullViolation ∧
    saveCommentItem "u" 4 ⟨[], [], [], []⟩ { id := none } = .error .notNullViolation ∧
    ∃ row : PostRow, row.post_id = "" ∧
      savePostItem "u" (fun _ _ => none) 4 ⟨[], [], [], []⟩ { id := some "", score := some 2 } =
        .ok { (⟨[], [], [], []⟩ : Database) with
              posts := [] ++ [row],
              score_history :=
                [] ++ [⟨"post", "", some ((some (2 : Int)).getD 0), 4⟩] } :=
  c7_null_id_rejected_empty_id_stored "u" (fun _ _ => none) 4 ⟨[], [], [], []⟩
    { id := none } { id := none } { id := some "", score := some 2 }
    rfl rfl rfl (by simp)

theorem savePostsRun_append (u : String) (dl : String → String → Option String)
    (now : Nat) (xs : List PostPayload) :
    ∀ (db : Database) (ys : List PostPayload),
      savePostsRun u dl now db (xs ++ ys) =
        match savePostsRun u dl now db xs with
        | .ok db' => savePostsRun u dl now db' ys
        | .error e => .error e := by
  induction xs with
  | nil => intro db ys; rfl
  | cons x xs ih =>
      intro db ys
      simp only [List.cons_append, savePostsRun]
      cases savePostItem u dl now db x with
      | ok db' => exact ih db' ys
      | error e => rfl

theorem saveCommentsRun_append (u : String) (now : Nat) (xs : List CommentPayload) :
    ∀ (db : Database) (ys : List CommentPayload),
      saveCommentsRun u now db (xs ++ ys) =
        match saveCommentsRun u now db xs with
        | .ok db' => saveCommentsRun u now db' ys
        | .error e => .error e := by
  induction xs with
  | nil => intro db ys; rfl
  | cons x xs ih =>
      intro db ys
      simp only [List.cons_append, saveCommentsRun]
      cases saveCommentItem u now db x with
      | ok db' => exact ih db' ys
      | error e => rfl

/-- C8 counterexample: one bad payload (missing id) aborts the whole pass
of `save_posts` — the valid item after it is never processed and, because
the single commit is skipped, nothing from the cycle is stored. -/
theorem c8_counterexample_bad_item_aborts_rest :
    savePostsRun "u" (fun _ _ => none) 7 ⟨[], [], [], []⟩
        [{ id := none }, { id := some "g", score := some 2 }] =
      .error .notNullViolation ∧
    savePosts "u" (fun _ _ => none) 7 ⟨[], [], [], []⟩
        [{ id := none }, { id := some "g", score := some 2 }] = ⟨[], [], [], []⟩ := by
  exact ⟨rfl, rfl⟩

/-- C8 amended: there is no per-item error handling in `save_posts` /
`save_comments`: an error while saving one item propagates, the remaining
items of the list are never processed, and the skipped commit discards the
whole cycle's writes (only image downloads are isolated per item, inside
`download_image`). -/
theorem c8_item_error_aborts_cycle (u : String)
    (dl : String → String → Option String) (now : Nat) (db db₁ db₂ : Database)
    (xs ys : List PostPayload) (bad : PostPayload)
    (hok : savePostsRun u dl now db xs = .ok db₁) (hbad : bad.id = none)
    (cs ds : List CommentPayload) (cbad : CommentPayload)
    (hokc : saveCommentsRun u now db cs = .ok db₂) (hcbad : cbad.id = none) :
    savePostsRun u dl now db (xs ++ bad :: ys) = .error .notNullViolation ∧
    savePosts u dl now db (xs ++ bad :: ys) = db ∧
    saveCommentsRun u now db (cs ++ cbad :: ds) = .error .notNullViolation ∧
    saveComments u now db (cs ++ cbad :: ds) = db := by
  have h1 : savePostsRun u dl now db (xs ++ bad :: ys) = .error .notNullViolation := by
    rw [savePostsRun_append, hok]
    simp [savePostsRun, savePostItem, hbad]
  have h2 : saveCommentsRun u now db (cs ++ cbad :: ds) = .error .notNullViolation := by
    rw [saveCommentsRun_append, hokc]
    simp [saveCommentsRun, saveCommentItem, hcbad]
  refine ⟨h1, ?_, h2, ?_⟩
  · rw [savePosts, h1]
  · rw [saveComments, h2]

/-- Witness for the amended C8. -/
theorem c8_item_error_aborts_cycle_witness :
    savePostsRun "w" (fun _ _ => none) 8 ⟨[], [], [], []⟩
        ([] ++ { id := none } :: [{ id := some "g", score := some 2 }]) =
      .error .notNullViolation ∧
    savePosts "w" (fun _ _ => none) 8 ⟨[], [], [], []⟩
        ([] ++ { id := none } :: [{ id := some "g", score := some 2 }]) = ⟨[], [], [], []⟩ ∧
    saveCommentsRun "w" 8 ⟨[], [], [], []⟩
        ([] ++ { id := none } :: [{ id := some "h", score := some 3 }]) =
      .error .notNullViolation ∧
    saveComments "w" 8 ⟨[], [], [], []⟩
        ([] ++ { id := none } :: [{ id := some "h", score := some 3 }]) = ⟨[], [], [], []⟩ :=
  c8_item_error_aborts_cycle "w" (fun _ _ => none) 8 ⟨[], [], [], []⟩ ⟨[], [], [], []⟩
    ⟨[], [], [], []⟩ [] [{ id := some "g", score := some 2 }] { id := none } rfl rfl
    [] [{ id := some "h", score := some 3 }] { id := none } rfl rfl

/-! ## Atomicity of the merge: the statement trace -/

theorem commit_not_mem_snapTrace (src : List SnapshotRow) :
    ∀ t, MergeOp.commit ∉ snapTrace t src := by
  induction src with
  | nil => intro t; simp [snapTrace]
  | cons r rs ih =>
      intro t
      cases hc : t.any (snapMatch r) <;> simp [snapTrace, hc, ih]

theorem commit_not_mem_postTrace (src : List PostRow) :
    ∀ t, MergeOp.commit ∉ postTrace t src := by
  induction src with
  | nil => intro t; simp [postTrace]
  | cons r rs ih =>
      intro t
      cases hf : t.find? (fun x => x.post_id == r.post_id) with
      | none => simp [postTrace, hf, ih]
      | some e =>
          cases hra : r.last_updated with
          | none => simp [postTrace, hf, hra, ih]
          | some slu =>
              cases hre : e.last_updated with
              | none => simp [postTrace, hf, hra, hre, ih]
              | some tlu =>
                  by_cases hlt : tlu < slu <;> simp [postTrace, hf, hra, hre, hlt, ih]

theorem commit_not_mem_commTrace (src : List CommentRow) :
    ∀ t, MergeOp.commit ∉ commTrace t src := by
  induction src with
  | nil => intro t; simp [commTrace]
  | cons r rs ih =>
      intro t
      cases hf : t.find? (fun x => x.comment_id == r.comment_id) with
      | none => simp [commTrace, hf, ih]
      | some e =>
          cases hra : r.last_updated with
          | none => simp [commTrace, hf, hra, ih]
          | some slu =>
              cases hre : e.last_updated with
              | none => simp [commTrace, hf, hra, hre, ih]
              | some tlu =>
                  by_cases hlt : tlu < slu <;> simp [commTrace, hf, hra, hre, hlt, ih]

theorem commit_not_mem_histTrace (src : List ScoreRow) :
    ∀ t, MergeOp.commit ∉ histTrace t src := by
  induction src with
  | nil => intro t; simp [histTrace]
  | cons r rs ih =>
      intro t
      cases hc : t.any (histMatch r) <;> simp [histTrace, hc, ih]

/-- Writes never change the committed database. -/
theorem execOps_committed_of_not_mem (ops : List MergeOp) :
    ∀ s : ConnState, MergeOp.commit ∉ ops → (execOps s ops).committed = s.committed := by
  induction ops with
  | nil => intro s _; rfl
  | cons op ops ih =>
      intro s h
      have hop : op ≠ MergeOp.commit := fun he => h (he ▸ List.mem_cons_self _ _)
      have h1 : MergeOp.commit ∉ ops := fun hm => h (List.mem_cons_of_mem _ hm)
      have h2 : (applyOp s op).committed = s.committed := by
        cases op with
        | commit => exact absurd rfl hop
        | _ => rfl
      show (execOps (applyOp s op) ops).committed = s.committed
      rw [ih _ h1, h2]

theorem execOps_append (s : ConnState) (l₁ l₂ : List MergeOp) :
    execOps s (l₁ ++ l₂) = execOps (execOps s l₁) l₂ :=
  List.foldl_append _ _ _ _

theorem execOps_snapTrace (src : List SnapshotRow) :
    ∀ (t : List SnapshotRow) (s : ConnState), s.pending.account_snapshots = t →
      execOps s (snapTrace t src) =
        { s with pending := { s.pending with account_snapshots := snapMergeList t src } } := by
  induction src with
  | nil =>
      intro t s hs
      subst hs
      rfl
  | cons r rs ih =>
      intro t s hs
      cases hc : t.any (snapMatch r) with
      | true =>
          simp only [snapTrace, snapMergeList, hc, if_true]
          exact ih t s hs
      | false =>
          simp only [snapTrace, snapMergeList, hc, Bool.false_eq_true, if_false]
          show execOps (applyOp s (.insertSnap r)) (snapTrace (t ++ [r]) rs) = _
      -- the insert statement extends the pending table, then the tail runs
          rw [ih (t ++ [r]) (applyOp s (.insertSnap r)) (by simp [applyOp, hs])]
          simp [applyOp]

theorem execOps_postTrace (src : List PostRow) :
    ∀ (t : List PostRow) (s : ConnState), s.pending.posts = t →
      execOps s (postTrace t src) =
        { s with pending := { s.pending with posts := postMergeList t src } } := by
  induction src with
  | nil =>
      intro t s hs
      subst hs
      rfl
  | cons r rs ih =>
      intro t s hs
      cases hf : t.find? (fun x => x.post_id == r.post_id) with
      | none =>
          simp only [postTrace, postMergeList, hf]
          show execOps (applyOp s (.insertPost r)) (postTrace (t ++ [r]) rs) = _
          rw [ih (t ++ [r]) (applyOp s (.insertPost r)) (by simp [applyOp, hs])]
          simp [applyOp]
      | some e =>
          cases hra : r.last_updated with
          | none =>
              simp only [postTrace, postMergeList, hf, hra]
              exact ih t s hs
          | some slu =>
              cases hre : e.last_updated with
              | none =>
                  simp only [postTrace, postMergeList, hf, hra, hre]
                  exact ih t s hs
              | some tlu =>
                  by_cases hlt : tlu < slu
                  · simp only [postTrace, postMergeList, hf, hra, hre, if_pos hlt]
                    show execOps (applyOp s (.updatePost r))
                        (postTrace (applyPostUpdate r t) rs) = _
                    rw [ih (applyPostUpdate r t) (applyOp s (.updatePost r))
                          (by simp [applyOp, hs])]
                    simp [applyOp]
                  · simp only [postTrace, postMergeList, hf, hra, hre, if_neg hlt]
                    exact ih t s hs

theorem execOps_commTrace (src : List CommentRow) :
    ∀ (t : List CommentRow) (s : ConnState), s.pending.comments = t →
      execOps s (commTrace t src) =
        { s with pending := { s.pending with comments := commMergeList t src } } := by
  induction src with
  | nil =>
      intro t s hs
      subst hs
      rfl
  | cons r rs ih =>
      intro t s hs
      cases hf : t.find? (fun x => x.comment_id == r.comment_id) with
      | none =>
          simp only [commTrace, commMergeList, hf]
          show execOps (applyOp s (.insertComment r)) (commTrace (t ++ [r]) rs) = _
          rw [ih (t ++ [r]) (applyOp s (.insertComment r)) (by simp [applyOp, hs])]
          simp [applyOp]
      | some e =>
          cases hra : r.last_updated with
          | none =>
              simp only [commTrace, commMergeList, hf, hra]
              exact ih t s hs
          | some slu =>
              cases hre : e.last_updated with
              | none =>
                  simp only [commTrace, commMergeList, hf, hra, hre]
                  exact ih t s hs
              | some tlu =>
                  by_cases hlt : tlu < slu
                  · simp only [commTrace, commMergeList, hf, hra, hre, if_pos hlt]
                    show execOps (applyOp s (.updateComment r))
                        (commTrace (applyCommentUpdate r t) rs) = _
                    rw [ih (applyCommentUpdate r t) (applyOp s (.updateComment r))
                          (by simp [applyOp, hs])]
                    simp [applyOp]
                  · simp only [commTrace, commMergeList, hf, hra, hre, if_neg hlt]
                    exact ih t s hs

theorem execOps_histTrace (src : List ScoreRow) :
    ∀ (t : List ScoreRow) (s : ConnState), s.pending.score_history = t →
      execOps s (histTrace t src) =
        { s with pending := { s.pending with score_history := histMergeList t src } } := by
  induction src with
  | nil =>
      intro t s hs
      subst hs
      rfl
  | cons r rs ih =>
      intro t s hs
      cases hc : t.any (histMatch r) with
      | true =>
          simp only [histTrace, histMergeList, hc, if_true]
          exact ih t s hs
      | false =>
          simp only [histTrace, histMergeList, hc, Bool.false_eq_true, if_false]
          show execOps (applyOp s (.insertHist r)) (histTrace (t ++ [r]) rs) = _
          rw [ih (t ++ [r]) (applyOp s (.insertHist r)) (by simp [applyOp, hs])]
          simp [applyOp]

/-- C10: One `merge_databases` run issues its per-row writes for all four
tables and then a single `commit`, which is the last statement; executing
any proper prefix of the run (an interruption before completion) leaves
the committed target database exactly as it was, and executing the whole
run commits precisely the merged database. -/
theorem c10_single_commit_atomicity (src tgt : Database) :
    (mergeTrace src tgt).count MergeOp.commit = 1 ∧
    (mergeTrace src tgt).getLast? = some MergeOp.commit ∧
    (∀ k, k < (mergeTrace src tgt).length →
      (execOps ⟨tgt, tgt⟩ ((mergeTrace src tgt).take k)).committed = tgt) ∧
    (execOps ⟨tgt, tgt⟩ (mergeTrace src tgt)).committed = (mergeOk src tgt).1 := by
  have htr : mergeTrace src tgt =
      (snapTrace tgt.account_snapshots src.account_snapshots ++
       postTrace tgt.posts src.posts ++
       commTrace tgt.comments src.comments ++
       histTrace tgt.score_history src.score_history) ++ [.commit] := by
    simp [mergeTrace, List.append_assoc]
  have hW : MergeOp.commit ∉
      snapTrace tgt.account_snapshots src.account_snapshots ++
      postTrace tgt.posts src.posts ++
      commTrace tgt.comments src.comments ++
      histTrace tgt.score_history src.score_history := by
    simp only [List.mem_append]
    rintro ((( h | h ) | h ) | h)
    · exact commit_not_mem_snapTrace _ _ h
    · exact commit_not_mem_postTrace _ _ h
    · exact commit_not_mem_commTrace _ _ h
    · exact commit_not_mem_histTrace _ _ h
  refine ⟨?_, ?_, ?_, ?_⟩
  · rw [htr]
    rw [List.count_append]
    rw [List.count_eq_zero.mpr hW]
    rfl
  · rw [htr]
    exact List.getLast?_concat _
  · intro k hk
    rw [htr] at hk ⊢
    rw [List.length_append, List.length_singleton] at hk
    have hk' : k ≤ (snapTrace tgt.account_snapshots src.account_snapshots ++
        postTrace tgt.posts src.posts ++
        commTrace tgt.comments src.comments ++
        histTrace tgt.score_history src.score_history).length := by omega
    rw [List.take_append_of_le_length hk']
    apply execOps_committed_of_not_mem
    intro hmem
    exact hW (List.take_subset _ _ hmem)
  · rw [htr, execOps_append, execOps_append, execOps_append, execOps_append]
    rw [execOps_snapTrace src.account_snapshots tgt.account_snapshots ⟨tgt, tgt⟩ rfl]
    rw [execOps_postTrace src.posts tgt.posts _ rfl]
    rw [execOps_commTrace src.comments tgt.comments _ rfl]
    rw [execOps_histTrace src.score_history tgt.score_history _ rfl]
    simp [execOps, applyOp, mergeOk, mergeSnaps_tgt, mergePosts_tgt,
      mergeComments_tgt, mergeHistory_tgt]

/-- Witness for C10 at concrete datasets, interrupting after two writes. -/
theorem c10_single_commit_atomicity_witness :
    (mergeTrace exSrc exTgt).count MergeOp.commit = 1 ∧
    (mergeTrace exSrc exTgt).getLast? = some MergeOp.commit ∧
    (execOps ⟨exTgt, exTgt⟩ ((mergeTrace exSrc exTgt).take 2)).committed = exTgt ∧
    (execOps ⟨exTgt, exTgt⟩ (mergeTrace exSrc exTgt)).committed = (mergeOk exSrc exTgt).1 :=
  ⟨(c10_single_commit_atomicity exSrc exTgt).1,
   (c10_single_commit_atomicity exSrc exTgt).2.1,
   (c10_single_commit_atomicity exSrc exTgt).2.2.1 2 (by decide),
   (c10_single_commit_atomicity exSrc exTgt).2.2.2⟩

/-! ## Commutativity analysis (C6) -/

theorem postFixedEq_symm {a b : PostRow} (h : postFixedEq a b) : postFixedEq b a := by
  obtain ⟨h1, h2, h3, h4, h5, h6, h7, h8, h9, h10, h11⟩ := h
  exact ⟨h1.symm, h2.symm, h3.symm, h4.symm, h5.symm, h6.symm, h7.symm, h8.symm,
         h9.symm, h10.symm, h11.symm⟩

theorem commFixedEq_symm {a b : CommentRow} (h : commFixedEq a b) : commFixedEq b a := by
  obtain ⟨h1, h2, h3, h4, h5, h6, h7, h8⟩ := h
  exact ⟨h1.symm, h2.symm, h3.symm, h4.symm, h5.symm, h6.symm, h7.symm, h8.symm⟩

/-- When the never-written fields agree, updating `b` from `a` yields `a`
itself. -/
theorem updP_eq_of_fixed {a b : PostRow} (hid : a.post_id = b.post_id)
    (h : postFixedEq a b) : updP b a = a := by
  obtain ⟨h1, h2, h3, h4, h5, h6, h7, h8, h9, h10, h11⟩ := h
  cases a
  cases b
  simp_all [updP]

theorem updC_eq_of_fixed {a b : CommentRow} (hid : a.comment_id = b.comment_id)
    (h : commFixedEq a b) : updC b a = a := by
  obtain ⟨h1, h2, h3, h4, h5, h6, h7, h8⟩ := h
  cases a
  cases b
  simp_all [updC]

theorem mem_postMergeList {src tgt : List PostRow}
    (hsrc : PostKeysOk src) (htgt : PostKeysOk tgt) (x : PostRow) :
    x ∈ postMergeList tgt src ↔
      (∃ b ∈ tgt, resolveP src b = x) ∨
      (x ∈ src ∧ (tgt.any fun b => b.post_id == x.post_id) = false) := by
  rw [postMergeList_closed src tgt hsrc htgt]
  simp [newPosts, List.mem_filter]

theorem mem_commMergeList {src tgt : List CommentRow}
    (hsrc : CommKeysOk src) (htgt : CommKeysOk tgt) (x : CommentRow) :
    x ∈ commMergeList tgt src ↔
      (∃ b ∈ tgt, resolveC src b = x) ∨
      (x ∈ src ∧ (tgt.any fun b => b.comment_id == x.comment_id) = false) := by
  rw [commMergeList_closed src tgt hsrc htgt]
  simp [newComments, List.mem_filter]

/-- Closed form of the snapshot pass when the source has no duplicate
identities. -/
theorem snapMergeList_closed (src : List SnapshotRow) :
    ∀ tgt, SnapKeysOk src → snapMergeList tgt src = tgt ++ newSnaps src tgt := by
  induction src with
  | nil => intro tgt _; simp [snapMergeList, newSnaps]
  | cons a rs ih =>
      intro tgt hsrc
      have hrs : ∀ x ∈ rs, a.username ≠ x.username ∨ a.timestamp ≠ x.timestamp := by
        intro x hx
        have := hsrc.head_not_in_tail x hx
        by_cases hu : a.username = x.username
        · right; intro ht; exact this (by rw [hu, ht])
        · left; exact hu
      cases hc : tgt.any (snapMatch a) with
      | true =>
          simp only [snapMergeList, hc, if_true]
          rw [ih tgt hsrc.of_cons]
          congr 1
          unfold newSnaps
          rw [List.filter_cons_of_neg]
          simp [hc]
      | false =>
          simp only [snapMergeList, hc, Bool.false_eq_true, if_false]
          rw [ih (tgt ++ [a]) hsrc.of_cons]
          have hnew : newSnaps rs (tgt ++ [a]) = newSnaps rs tgt := by
            unfold newSnaps
            apply List.filter_congr
            intro x hx
            have : snapMatch x a = false := by
              rcases hrs x hx with h | h <;> simp [snapMatch, h]
            simp [List.any_append, this]
          have hnew2 : newSnaps (a :: rs) tgt = a :: newSnaps rs tgt := by
            unfold newSnaps
            rw [List.filter_cons_of_pos]
            simp [hc]
          rw [hnew, hnew2, List.append_assoc]
          rfl

/-- Closed form of the history pass when the source has no duplicate
identities. -/
theorem histMergeList_closed (src : List ScoreRow) :
    ∀ tgt, HistKeysOk src → histMergeList tgt src = tgt ++ newHist src tgt := by
  induction src with
  | nil => intro tgt _; simp [histMergeList, newHist]
  | cons a rs ih =>
      intro tgt hsrc
      have hrs : ∀ x ∈ rs,
          a.item_type ≠ x.item_type ∨ a.item_id ≠ x.item_id ∨ a.timestamp ≠ x.timestamp := by
        intro x hx
        have hne := hsrc.head_not_in_tail x hx
        by_cases h1 : a.item_type = x.item_type
        · by_cases h2 : a.item_id = x.item_id
          · right; right; intro h3; exact hne (by rw [h1, h2, h3])
          · right; left; exact h2
        · left; exact h1
      cases hc : tgt.any (histMatch a) with
      | true =>
          simp only [histMergeList, hc, if_true]
          rw [ih tgt hsrc.of_cons]
          congr 1
          unfold newHist
          rw [List.filter_cons_of_neg]
          simp [hc]
      | false =>
          simp only [histMergeList, hc, Bool.false_eq_true, if_false]
          rw [ih (tgt ++ [a]) hsrc.of_cons]
          have hnew : newHist rs (tgt ++ [a]) = newHist rs tgt := by
            unfold newHist
            apply List.filter_congr
            intro x hx
            have : histMatch x a = false := by
              rcases hrs x hx with h | h | h <;> simp [histMatch, h]
            simp [List.any_append, this]
          have hnew2 : newHist (a :: rs) tgt = a :: newHist rs tgt := by
            unfold newHist
            rw [List.filter_cons_of_pos]
            simp [hc]
          rw [hnew, hnew2, List.append_assoc]
          rfl

theorem mem_snapMergeList {src tgt : List SnapshotRow} (hsrc : SnapKeysOk src)
    (x : SnapshotRow) :
    x ∈ snapMergeList tgt src ↔
      x ∈ tgt ∨ (x ∈ src ∧ (tgt.any (snapMatch x)) = false) := by
  rw [snapMergeList_closed src tgt hsrc]
  simp [newSnaps, List.mem_filter]

theorem mem_histMergeList {src tgt : List ScoreRow} (hsrc : HistKeysOk src)
    (x : ScoreRow) :
    x ∈ histMergeList tgt src ↔
      x ∈ tgt ∨ (x ∈ src ∧ (tgt.any (histMatch x)) = false) := by
  rw [histMergeList_closed src tgt hsrc]
  simp [newHist, List.mem_filter]

theorem postMergeList_swap (A B : List PostRow) (hA : PostKeysOk A) (hB : PostKeysOk B)
    (hx : ∀ a ∈ A, ∀ b ∈ B, a.post_id = b.post_id →
      postFixedEq a b ∧ ∃ la lb, a.last_updated = some la ∧ b.last_updated = some lb ∧
        (la = lb → a = b)) :
    ∀ x, x ∈ postMergeList B A → x ∈ postMergeList A B := by
  intro x hmem
  rw [mem_postMergeList hA hB] at hmem
  rw [mem_postMergeList hB hA]
  rcases hmem with ⟨b, hb, hres⟩ | ⟨hxa, hany⟩
  · cases hf : A.find? (fun a => a.post_id == b.post_id) with
    | none =>
        have hbx : b = x := by
          simp only [resolveP, hf] at hres
          exact hres
        right
        subst hbx
        refine ⟨hb, ?_⟩
        rw [List.any_eq_false]
        intro a ha
        have := (List.find?_eq_none.mp hf) a ha
        simpa using this
    | some a =>
        have ha : a ∈ A := List.mem_of_find?_eq_some hf
        have haid : a.post_id = b.post_id := by simpa using List.find?_some hf
        obtain ⟨hfix, la, lb, hla, hlb, heq⟩ := hx a ha b hb haid
        have hresv : resolveP A b = if lb < la then updP b a else b := by
          simp only [resolveP, hf, hla, hlb]
        have hfb : B.find? (fun y => y.post_id == a.post_id) = some b :=
          find?_eq_some_of_uniq hB hb haid.symm
        by_cases hlt : lb < la
        · rw [hresv, if_pos hlt, updP_eq_of_fixed haid hfix] at hres
          left
          refine ⟨a, ha, ?_⟩
          simp only [resolveP, hfb, hla, hlb]
          rw [if_neg (by omega : ¬ la < lb)]
          exact hres
        · rw [hresv, if_neg hlt] at hres
          by_cases hle : la = lb
          · have hab : a = b := heq hle
            left
            refine ⟨a, ha, ?_⟩
            simp only [resolveP, hfb, hla, hlb]
            rw [if_neg (by omega : ¬ la < lb), hab]
            exact hres
          · have hlt2 : la < lb := by omega
            left
            refine ⟨a, ha, ?_⟩
            simp only [resolveP, hfb, hla, hlb]
            rw [if_pos hlt2, updP_eq_of_fixed haid.symm (postFixedEq_symm hfix)]
            exact hres
  · left
    refine ⟨x, hxa, ?_⟩
    apply resolveP_of_absent
    intro y hy
    have := List.any_eq_false.mp hany y hy
    simpa using this

theorem commMergeList_swap (A B : List CommentRow) (hA : CommKeysOk A) (hB : CommKeysOk B)
    (hx : ∀ a ∈ A, ∀ b ∈ B, a.comment_id = b.comment_id →
      commFixedEq a b ∧ ∃ la lb, a.last_updated = some la ∧ b.last_updated = some lb ∧
        (la = lb → a = b)) :
    ∀ x, x ∈ commMergeList B A → x ∈ commMergeList A B := by
  intro x hmem
  rw [mem_commMergeList hA hB] at hmem
  rw [mem_commMergeList hB hA]
  rcases hmem with ⟨b, hb, hres⟩ | ⟨hxa, hany⟩
  · cases hf : A.find? (fun a => a.comment_id == b.comment_id) with
    | none =>
        have hbx : b = x := by
          simp only [resolveC, hf] at hres
          exact hres
        right
        subst hbx
        refine ⟨hb, ?_⟩
        rw [List.any_eq_false]
        intro a ha
        have := (List.find?_eq_none.mp hf) a ha
        simpa using this
    | some a =>
        have ha : a ∈ A := List.mem_of_find?_eq_some hf
        have haid : a.comment_id = b.comment_id := by simpa using List.find?_some hf
        obtain ⟨hfix, la, lb, hla, hlb, heq⟩ := hx a ha b hb haid
        have hresv : resolveC A b = if lb < la then updC b a else b := by
          simp only [resolveC, hf, hla, hlb]
        have hfb : B.find? (fun y => y.comment_id == a.comment_id) = some b :=
          find?_eq_some_of_uniq hB hb haid.symm
        by_cases hlt : lb < la
        · rw [hresv, if_pos hlt, updC_eq_of_fixed haid hfix] at hres
          left
          refine ⟨a, ha, ?_⟩
          simp only [resolveC, hfb, hla, hlb]
          rw [if_neg (by omega : ¬ la < lb)]
          exact hres
        · rw [hresv, if_neg hlt] at hres
          by_cases hle : la = lb
          · have hab : a = b := heq hle
            left
            refine ⟨a, ha, ?_⟩
            simp only [resolveC, hfb, hla, hlb]
            rw [if_neg (by omega : ¬ la < lb), hab]
            exact hres
          · have hlt2 : la < lb := by omega
            left
            refine ⟨a, ha, ?_⟩
            simp only [resolveC, hfb, hla, hlb]
            rw [if_pos hlt2, updC_eq_of_fixed haid.symm (commFixedEq_symm hfix)]
            exact hres
  · left
    refine ⟨x, hxa, ?_⟩
    apply resolveC_of_absent
    intro y hy
    have := List.any_eq_false.mp hany y hy
    simpa using this

theorem snapMergeList_swap (A B : List SnapshotRow) (hA : SnapKeysOk A) (hB : SnapKeysOk B)
    (hx : ∀ a ∈ A, ∀ b ∈ B, a.username = b.username → a.timestamp = b.timestamp → a = b) :
    ∀ x, x ∈ snapMergeList B A → x ∈ snapMergeList A B := by
  intro x hmem
  rw [mem_snapMergeList hA] at hmem
  rw [mem_snapMergeList hB]
  rcases hmem with hxb | ⟨hxa, _⟩
  · cases hc : A.any (snapMatch x) with
    | false => exact Or.inr ⟨hxb, rfl⟩
    | true =>
        rcases List.any_eq_true.mp hc with ⟨a, ha, hma⟩
        have hma' : a.username = x.username ∧ a.timestamp = x.timestamp := by
          simpa [snapMatch] using hma
        have : a = x := hx a ha x hxb hma'.1 hma'.2
        exact Or.inl (this ▸ ha)
  · exact Or.inl hxa

theorem histMergeList_swap (A B : List ScoreRow) (hA : HistKeysOk A) (hB : HistKeysOk B)
    (hx : ∀ a ∈ A, ∀ b ∈ B, a.item_type = b.item_type → a.item_id = b.item_id →
      a.timestamp = b.timestamp → a = b) :
    ∀ x, x ∈ histMergeList B A → x ∈ histMergeList A B := by
  intro x hmem
  rw [mem_histMergeList hA] at hmem
  rw [mem_histMergeList hB]
  rcases hmem with hxb | ⟨hxa, _⟩
  · cases hc : A.any (histMatch x) with
    | false => exact Or.inr ⟨hxb, rfl⟩
    | true =>
        rcases List.any_eq_true.mp hc with ⟨a, ha, hma⟩
        have hma' : (a.item_type = x.item_type ∧ a.item_id = x.item_id) ∧
            a.timestamp = x.timestamp := by
          simpa [histMatch] using hma
        have : a = x := hx a ha x hxb hma'.1.1 hma'.1.2 hma'.2
        exact Or.inl (this ▸ ha)
  · exact Or.inl hxa

/-- C6 counterexample: merging A into a fresh copy of B and B into a
fresh copy of A do NOT converge when a common item carries equal
`last_updated` values but different scores — each direction keeps its own
target's row, so the two final states differ (even as sets of rows). -/
theorem c6_counterexample_no_convergence :
    (mergeOk cexA cexB).1 ≠ (mergeOk cexB cexA).1 ∧
    cexCommentB ∈ (mergeOk cexA cexB).1.comments ∧
    cexCommentB ∉ (mergeOk cexB cexA).1.comments := by
  decide

/-- C6 amended: the two merge directions converge (same set of rows in
every table) only under the recency hypotheses the counterexample shows
to be necessary: unique identities inside each dataset, rows shared by
identity agreeing on every field the merge never writes, both
`last_updated` values present for common content items, and equal
`last_updated` implying equal rows. -/
theorem c6_commutes_under_recency_hypotheses (A B : Database)
    (hpA : PostKeysOk A.posts) (hpB : PostKeysOk B.posts)
    (hcA : CommKeysOk A.comments) (hcB : CommKeysOk B.comments)
    (hsA : SnapKeysOk A.account_snapshots) (hsB : SnapKeysOk B.account_snapshots)
    (hhA : HistKeysOk A.score_history) (hhB : HistKeysOk B.score_history)
    (hxS : ∀ a ∈ A.account_snapshots, ∀ b ∈ B.account_snapshots,
      a.username = b.username → a.timestamp = b.timestamp → a = b)
    (hxH : ∀ a ∈ A.score_history, ∀ b ∈ B.score_history,
      a.item_type = b.item_type → a.item_id = b.item_id → a.timestamp = b.timestamp → a = b)
    (hxP : ∀ a ∈ A.posts, ∀ b ∈ B.posts, a.post_id = b.post_id →
      postFixedEq a b ∧ ∃ la lb, a.last_updated = some la ∧ b.last_updated = some lb ∧
        (la = lb → a = b))
    (hxC : ∀ a ∈ A.comments, ∀ b ∈ B.comments, a.comment_id = b.comment_id →
      commFixedEq a b ∧ ∃ la lb, a.last_updated = some la ∧ b.last_updated = some lb ∧
        (la = lb → a = b)) :
    (∀ x, x ∈ (mergeOk A B).1.account_snapshots ↔ x ∈ (mergeOk B A).1.account_snapshots) ∧
    (∀ x, x ∈ (mergeOk A B).1.posts ↔ x ∈ (mergeOk B A).1.posts) ∧
    (∀ x, x ∈ (mergeOk A B).1.comments ↔ x ∈ (mergeOk B A).1.comments) ∧
    (∀ x, x ∈ (mergeOk A B).1.score_history ↔ x ∈ (mergeOk B A).1.score_history) := by
  have hxS' : ∀ b ∈ B.account_snapshots, ∀ a ∈ A.account_snapshots,
      b.username = a.username → b.timestamp = a.timestamp → b = a :=
    fun b hb a ha h1 h2 => (hxS a ha b hb h1.symm h2.symm).symm
  have hxH' : ∀ b ∈ B.score_history, ∀ a ∈ A.score_history,
      b.item_type = a.item_type → b.item_id = a.item_id → b.timestamp = a.timestamp →
        b = a :=
    fun b hb a ha h1 h2 h3 => (hxH a ha b hb h1.symm h2.symm h3.symm).symm
  have hxP' : ∀ b ∈ B.posts, ∀ a ∈ A.posts, b.post_id = a.post_id →
      postFixedEq b a ∧ ∃ lb la, b.last_updated = some lb ∧ a.last_updated = some la ∧
        (lb = la → b = a) := by
    intro b hb a ha hk
    obtain ⟨hfix, la, lb, hla, hlb, heq⟩ := hxP a ha b hb hk.symm
    exact ⟨postFixedEq_symm hfix, lb, la, hlb, hla, fun h => (heq h.symm).symm⟩
  have hxC' : ∀ b ∈ B.comments, ∀ a ∈ A.comments, b.comment_id = a.comment_id →
      commFixedEq b a ∧ ∃ lb la, b.last_updated = some lb ∧ a.last_updated = some la ∧
        (lb = la → b = a) := by
    intro b hb a ha hk
    obtain ⟨hfix, la, lb, hla, hlb, heq⟩ := hxC a ha b hb hk.symm
    exact ⟨commFixedEq_symm hfix, lb, la, hlb, hla, fun h => (heq h.symm).symm⟩
  refine ⟨fun x => ?_, fun x => ?_, fun x => ?_, fun x => ?_⟩ <;>
    simp only [mergeOk, mergeSnaps_tgt, mergePosts_tgt, mergeComments_tgt,
      mergeHistory_tgt]
  · exact ⟨snapMergeList_swap A.account_snapshots B.account_snapshots hsA hsB hxS x,
           snapMergeList_swap B.account_snapshots A.account_snapshots hsB hsA hxS' x⟩
  · exact ⟨postMergeList_swap A.posts B.posts hpA hpB hxP x,
           postMergeList_swap B.posts A.posts hpB hpA hxP' x⟩
  · exact ⟨commMergeList_swap A.comments B.comments hcA hcB hxC x,
           commMergeList_swap B.comments A.comments hcB hcA hxC' x⟩
  · exact ⟨histMergeList_swap A.score_history B.score_history hhA hhB hxH x,
           histMergeList_swap B.score_history A.score_history hhB hhA hxH' x⟩

/-- Witness for the amended C6 at concrete datasets satisfying the
recency hypotheses. -/
theorem c6_commutes_under_recency_hypotheses_witness :
    (∀ x, x ∈ (mergeOk exSrc exTgt).1.account_snapshots ↔
        x ∈ (mergeOk exTgt exSrc).1.account_snapshots) ∧
    (∀ x, x ∈ (mergeOk exSrc exTgt).1.posts ↔ x ∈ (mergeOk exTgt exSrc).1.posts) ∧
    (∀ x, x ∈ (mergeOk exSrc exTgt).1.comments ↔ x ∈ (mergeOk exTgt exSrc).1.comments) ∧
    (∀ x, x ∈ (mergeOk exSrc exTgt).1.score_history ↔
        x ∈ (mergeOk exTgt exSrc).1.score_history) :=
  c6_commutes_under_recency_hypotheses exSrc exTgt
    (by simp [PostKeysOk, UniqKeys, exSrc])
    (by simp [PostKeysOk, UniqKeys, exTgt])
    (by simp [CommKeysOk, UniqKeys, exSrc])
    (by simp [CommKeysOk, UniqKeys, exTgt])
    (by simp [SnapKeysOk, UniqKeys, exSrc])
    (by simp [SnapKeysOk, UniqKeys, exTgt])
    (by simp [HistKeysOk, UniqKeys, exSrc])
    (by simp [HistKeysOk, UniqKeys, exTgt])
    (by
      intro a ha b hb h1 h2
      simp only [exSrc, List.mem_singleton] at ha
      simp only [exTgt, List.mem_singleton] at hb
      subst ha; subst hb
      exact absurd h2 (by decide))
    (by
      intro a ha b hb h1 h2 h3
      simp only [exTgt] at hb
      simp at hb)
    (by
      intro a ha b hb hk
      simp only [exSrc, List.mem_singleton] at ha
      simp only [exTgt, List.mem_singleton] at hb
      subst ha; subst hb
      refine ⟨⟨rfl, rfl, rfl, rfl, rfl, rfl, rfl, rfl, rfl, rfl, rfl⟩, 5, 4, rfl, rfl, ?_⟩
      intro h
      exact absurd h (by decide))
    (by
      intro a ha b hb hk
      simp only [exSrc, List.mem_singleton] at ha
      simp only [exTgt, List.mem_singleton] at hb
      subst ha; subst hb
      exact absurd hk (by decide))
